import Mathlib

/-!
# Verification of the Kingst firmware extractor (extract_firmware.py)

A shallow embedding of the binary-container parsing pipeline of
`extract_firmware.py`: Python `bytes` become `List Nat` (each element a byte
value), Python `str` becomes `List Char`, fallible operations (out-of-bounds
`struct.unpack_from` / `struct.unpack`, strict decodes, uncaught exceptions)
return `Except PyErr`, and the external `zlib.decompress` is an explicit
function parameter `inflate : List Nat → Option (List Nat)` (with `none`
modelling a raised `zlib.error`).
-/

/-- Python-level failure modes that the source can raise or signal. -/
inductive PyErr where
  | structError      -- struct.error from unpack / unpack_from
  | decodeFailure    -- zlib.error / UnicodeDecodeError propagating uncaught
  | anchorNotFound   -- RuntimeError raised by the anchor locator
  | indexError       -- list index out of range
  | recursionError   -- Python recursion limit
  deriving DecidableEq, Repr

/-! ## Byte-buffer primitives (Python bytes / struct semantics) -/

/-- Python slice `b[start : start+len]`: clamps, never fails. -/
def pySlice (b : List Nat) (start len : Nat) : List Nat :=
  (b.drop start).take len

/-- `struct.unpack_from(">H", b, i)`: fails unless `i + 2 ≤ len b`. -/
def readU16BE (b : List Nat) (i : Nat) : Option Nat :=
  if i + 2 ≤ b.length then some (256 * b.getD i 0 + b.getD (i+1) 0) else none

/-- `struct.unpack_from(">I", b, i)`: fails unless `i + 4 ≤ len b`. -/
def readU32BE (b : List Nat) (i : Nat) : Option Nat :=
  if i + 4 ≤ b.length then
    some (16777216 * b.getD i 0 + 65536 * b.getD (i+1) 0 +
          256 * b.getD (i+2) 0 + b.getD (i+3) 0)
  else none

/-- `struct.unpack_from("<I", b, i)`: fails unless `i + 4 ≤ len b`. -/
def readU32LE (b : List Nat) (i : Nat) : Option Nat :=
  if i + 4 ≤ b.length then
    some (b.getD i 0 + 256 * b.getD (i+1) 0 + 65536 * b.getD (i+2) 0 +
          16777216 * b.getD (i+3) 0)
  else none

/-- `struct.unpack_from("<Q", b, i)`: fails unless `i + 8 ≤ len b`. -/
def readU64LE (b : List Nat) (i : Nat) : Option Nat :=
  if i + 8 ≤ b.length then
    some (List.foldr (fun k acc => b.getD (i+k) 0 * 256 ^ k + acc) 0 (List.range 8))
  else none

/-- Total variant of `readU16BE` for positions known to be in bounds. -/
def readU16BED (b : List Nat) (i : Nat) : Nat :=
  256 * b.getD i 0 + b.getD (i+1) 0

/-- Total variant of `readU32BE` for positions known to be in bounds. -/
def readU32BED (b : List Nat) (i : Nat) : Nat :=
  16777216 * b.getD i 0 + 65536 * b.getD (i+1) 0 +
    256 * b.getD (i+2) 0 + b.getD (i+3) 0

/-! ## Python text helpers -/

/-- Python bytes whitespace (`bytes.strip` default set). -/
def isPySpace (n : Nat) : Bool :=
  n = 32 || n = 9 || n = 10 || n = 13 || n = 11 || n = 12

/-- `bytes.strip()`. -/
def pyStrip (l : List Nat) : List Nat :=
  ((l.dropWhile isPySpace).reverse.dropWhile isPySpace).reverse

/-- `bytes.split(b"\n")` (keeps empty chunks, like Python). -/
def splitNl : List Nat → List (List Nat)
  | [] => [[]]
  | 10 :: rest => [] :: splitNl rest
  | b :: rest =>
    match splitNl rest with
    | [] => [[b]]
    | chunk :: more => (b :: chunk) :: more

/-- Value of one ASCII hex digit. -/
def hexDigit (c : Nat) : Option Nat :=
  if 48 ≤ c ∧ c ≤ 57 then some (c - 48)
  else if 65 ≤ c ∧ c ≤ 70 then some (c - 55)
  else if 97 ≤ c ∧ c ≤ 102 then some (c - 87)
  else none

/-- `codecs.decode(l, "hex")`: fails on odd length or a non-hex digit. -/
def hexDecode : List Nat → Option (List Nat)
  | [] => some []
  | [_] => none
  | a :: b :: rest =>
    match hexDigit a, hexDigit b, hexDecode rest with
    | some x, some y, some r => some ((16 * x + y) :: r)
    | _, _, _ => none

/-- `bytes.rstrip(b"\x00")`. -/
def rstripZeros (l : List Nat) : List Nat :=
  (l.reverse.dropWhile (· = 0)).reverse

/-- `bytes.decode("ascii", errors="ignore")`: drops non-ASCII bytes. -/
def asciiIgnore (l : List Nat) : List Char :=
  l.filterMap (fun n => if n < 128 then some (Char.ofNat n) else none)

/-- Strict `bytes.decode("utf-16-be")` (surrogate pairing, errors fail). -/
def utf16beUnits : List Nat → Option (List Nat)
  | [] => some []
  | [_] => none
  | a :: b :: rest =>
    match utf16beUnits rest with
    | some r => some ((256 * a + b) :: r)
    | none => none

/-- Combine UTF-16 code units into code points; unpaired surrogates fail. -/
def utf16Combine : List Nat → Option (List Nat)
  | [] => some []
  | u :: rest =>
    if 55296 ≤ u ∧ u ≤ 56319 then
      match rest with
      | v :: rest2 =>
        if 56320 ≤ v ∧ v ≤ 57343 then
          match utf16Combine rest2 with
          | some r => some ((65536 + 1024 * (u - 55296) + (v - 56320)) :: r)
          | none => none
        else none
      | [] => none
    else if 56320 ≤ u ∧ u ≤ 57343 then none
    else
      match utf16Combine rest with
      | some r => some (u :: r)
      | none => none

/-- Full strict UTF-16-BE decode into a Python string (`List Char`). -/
def utf16beDecode (l : List Nat) : Option (List Char) :=
  match utf16beUnits l with
  | none => none
  | some units =>
    match utf16Combine units with
    | none => none
    | some cps => some (cps.map Char.ofNat)

/-- UTF-16-BE encoding of an ASCII/BMP string (used for the needle). -/
def utf16beEncode (s : List Char) : List Nat :=
  s.flatMap (fun c => [c.toNat / 256, c.toNat % 256])

/-- Python `str.lower()` restricted to its ASCII behaviour. -/
def pyLower (s : List Char) : List Char := s.map Char.toLower

/-! ## Python `sorted` / `list.sort` (stable, tuple-lexicographic) -/

/-- Stable insertion used by the model of Python's stable sort. -/
def pyInsert (le : α → α → Bool) (a : α) : List α → List α
  | [] => [a]
  | b :: l => if le a b then a :: b :: l else b :: pyInsert le a l

/-- Model of Python's `list.sort()` / `sorted()`: a stable sort by `le`.
Python's Timsort is stable, so any stable sort with the same total
preorder produces the same list. -/
def pySort (le : α → α → Bool) : List α → List α
  | [] => []
  | a :: l => pyInsert le a (pySort le l)

/-- Python comparison of `bytes` (lexicographic `≤`). -/
def bytesLe : List Nat → List Nat → Bool
  | [], _ => true
  | _ :: _, [] => false
  | a :: as_, b :: bs =>
    if a < b then true else if b < a then false else bytesLe as_ bs

/-- Python comparison of `str` (code-point lexicographic `≤`). -/
def charsLe : List Char → List Char → Bool
  | [], _ => true
  | _ :: _, [] => false
  | a :: as_, b :: bs =>
    if a.toNat < b.toNat then true
    else if b.toNat < a.toNat then false
    else charsLe as_ bs

/-- Python tuple comparison for the HEX records `(address, data)`. -/
def recLe (p q : Nat × List Nat) : Bool :=
  if p.1 < q.1 then true else if q.1 < p.1 then false else bytesLe p.2 q.2

/-! ## Intel HEX decoder (`_intel_hex_to_blob`, `_maybe_intel_hex_to_blob`) -/

/-- The record-collection loop of `_intel_hex_to_blob`: walks the lines,
skips blank / non-`:` / non-hex lines, stops at the first type-1 record and
collects `(address, data)` for type-0 records with positive byte count.
A line whose hex payload decodes to fewer than 4 bytes raises
`struct.error` (`struct.unpack(">BHB", record[:4])` with a short buffer). -/
def collectRecords : List (List Nat) → Except PyErr (List (Nat × List Nat))
  | [] => .ok []
  | ln :: rest =>
    let l := pyStrip ln
    if l.take 1 ≠ [58] then collectRecords rest
    else
      match hexDecode (l.drop 1) with
      | none => collectRecords rest
      | some record =>
        if record.length < 4 then .error .structError
        else
          let byteCount := record.getD 0 0
          let address := 256 * record.getD 1 0 + record.getD 2 0
          let recordType := record.getD 3 0
          if recordType = 0 ∧ 0 < byteCount then
            match collectRecords rest with
            | .error e => .error e
            | .ok ds => .ok ((address, pySlice record 4 byteCount) :: ds)
          else if recordType = 1 then .ok []
          else collectRecords rest

/-- Python `bytearray` slice assignment `img[off : off+len(part)] = part`
(with step 1): clamps the slice to the current length, so a write that
overruns the end grows the array. -/
def sliceAssign (img : List Nat) (off : Nat) (part : List Nat) : List Nat :=
  img.take (min off img.length) ++ part ++ img.drop (min (off + part.length) img.length)

/-- The image-building fold of `_intel_hex_to_blob`. -/
def buildImg (init : List Nat) (datas : List (Nat × List Nat)) : List Nat :=
  datas.foldl (fun img r => sliceAssign img r.1 r.2) init

/-- `_intel_hex_to_blob(hexdata)`. -/
def intel_hex_to_blob (hexdata : List Nat) : Except PyErr (List Nat) :=
  match collectRecords (splitNl hexdata) with
  | .error e => .error e
  | .ok datas =>
    if datas.isEmpty then .ok hexdata
    else
      let sorted := pySort recLe datas
      let last := sorted.getLastD (0, [])
      let length := last.1 + last.2.length
      .ok (buildImg (List.replicate length 0) sorted)

/-- `_maybe_intel_hex_to_blob(data)`. -/
def maybe_intel_hex_to_blob (data : List Nat) : Except PyErr (List Nat) :=
  if data ≠ [] ∧ data.getD 0 0 = 58 ∧ data.all (· < 128) then
    intel_hex_to_blob data
  else .ok data

/-! ## Python dict (insertion-ordered, unique keys) -/

/-- `d[k] = v` on a Python dict: replace in place if the key exists,
append otherwise. -/
def dictSet [DecidableEq α] (m : List (α × β)) (k : α) (v : β) : List (α × β) :=
  if k ∈ m.map Prod.fst then
    m.map (fun kv => if kv.1 = k then (k, v) else kv)
  else m ++ [(k, v)]

/-- `d.get(k)` on a Python dict. -/
def dictGet [DecidableEq α] (m : List (α × β)) (k : α) : Option β :=
  (m.find? (fun kv => decide (kv.1 = k))).map Prod.snd

/-- Characters of a Lean string literal as a Python `str` model. -/
def chars (s : String) : List Char := s.data

/-- ASCII text rendered as Python `bytes`. -/
def hexBytes (s : String) : List Nat := s.data.map Char.toNat

/-- `hay.find(pat)` / `pat in hay`: index of the first occurrence. -/
def listFind [DecidableEq α] (hay pat : List α) : Option Nat :=
  if pat.isPrefixOf hay then some 0
  else
    match hay with
    | [] => none
    | _ :: t => (listFind t pat).map (· + 1)

/-! ## Registries (`_CYPRESS_FW_NAMES`, `_FPGA_MODELS`) -/

def CYPRESS_FW_NAMES : List (List Char) :=
  [chars "fw01A1", chars "fw01A2", chars "fw01A3", chars "fw01A4", chars "fw03A1"]

def FPGA_MODELS : List (List Char) :=
  [chars "LA1010A0", chars "LA1010A1", chars "LA1010A2",
   chars "LA1016", chars "LA1016A1",
   chars "LA2016", chars "LA2016A1", chars "LA2016A2",
   chars "LA5016", chars "LA5016A1", chars "LA5016A2",
   chars "LA5032A0",
   chars "MS6218"]

/-! ## `_write_firmware_files` -/

/-- The resources dict `{path: (raw, compressed)}`. -/
abbrev ResourceDict := List (List Char × (List Nat × Bool))

/-- The three zlib header signatures checked at `raw[4:6]`. -/
def zlibMagic (two : List Nat) : Bool :=
  two = [120, 156] || two = [120, 218] || two = [120, 1]

/-- The guarded zlib attempt on an FPGA candidate: on a header match try to
inflate from offset 4, and on failure fall back to the raw bytes
(`except Exception: pass`). -/
def fpgaSniff (inflate : List Nat → Option (List Nat)) (raw : List Nat) : List Nat :=
  if 4 < raw.length ∧ zlibMagic (pySlice raw 4 2) then
    match inflate (raw.drop 4) with
    | some d => d
    | none => raw
  else raw

/-- Key comparison used by `sorted(resources.items())` (dict keys are
unique, so the tuple comparison never reaches the values). -/
def pathKeyLe (a b : List Char × (List Nat × Bool)) : Bool := charsLe a.1 b.1

/-- Body of the `_write_firmware_files` loop over the sorted items.
Output is the ordered list of `(filename, bytes)` pairs written to disk.
An uncaught exception (`zlib.decompress` of a `compressed` resource, or
`struct.error` inside `_maybe_intel_hex_to_blob`) aborts the whole loop. -/
def write_firmware_files_loop (inflate : List Nat → Option (List Nat)) :
    List (List Char × (List Nat × Bool)) → Except PyErr (List (List Char × List Nat))
  | [] => .ok []
  | (path, (raw0, compressed)) :: rest =>
    match (if compressed then
             match inflate (raw0.drop 4) with
             | none => Except.error PyErr.decodeFailure
             | some d => Except.ok d
           else Except.ok raw0) with
    | .error e => .error e
    | .ok raw =>
      let pathTail := match listFind path (chars "fwusb/") with
        | some i => path.drop i
        | none => path
      let pathTail2 := match listFind path (chars "fwfpga/") with
        | some i => path.drop i
        | none => path
      if (chars "fwusb/fw").isPrefixOf pathTail then
        match maybe_intel_hex_to_blob raw with
        | .error e => .error e
        | .ok blob =>
          match write_firmware_files_loop inflate rest with
          | .error e => .error e
          | .ok out =>
            .ok ((chars "kingst-la-" ++ pyLower (pathTail.drop 8) ++ chars ".fw", blob) :: out)
      else if (chars "fwfpga/").isPrefixOf pathTail2 then
        let raw2 := fpgaSniff inflate raw
        if raw2.length < 1000 then write_firmware_files_loop inflate rest
        else
          match write_firmware_files_loop inflate rest with
          | .error e => .error e
          | .ok out =>
            .ok ((chars "kingst-" ++ pyLower (pathTail2.drop 7) ++ chars "-fpga.bitstream", raw2) :: out)
      else write_firmware_files_loop inflate rest

/-- `_write_firmware_files(resources, output_dir)`. -/
def write_firmware_files (inflate : List Nat → Option (List Nat))
    (resources : ResourceDict) : Except PyErr (List (List Char × List Nat)) :=
  write_firmware_files_loop inflate (pySort pathKeyLe resources)

/-! ## `find_macho_const_section` -/

/-- Inner section loop of `find_macho_const_section` (80-byte records). -/
def machoSectLoop (data : List Nat) : Nat → Nat → Except PyErr (Option (Nat × Nat))
  | 0, _ => .ok none
  | n + 1, sectOff =>
    let sectname := asciiIgnore (rstripZeros (pySlice data sectOff 16))
    if sectname = chars "__const" then
      match readU32LE data (sectOff + 48), readU64LE data (sectOff + 40) with
      | some fileOff, some size => .ok (some (fileOff, size))
      | _, _ => .error .structError
    else machoSectLoop data n (sectOff + 80)

/-- Outer load-command loop of `find_macho_const_section`. -/
def machoCmdLoop (data : List Nat) : Nat → Nat → Except PyErr (Option (Nat × Nat))
  | 0, _ => .ok none
  | n + 1, cmdOff =>
    match readU32LE data cmdOff, readU32LE data (cmdOff + 4) with
    | some cmd, some cmdsize =>
      if cmd = 25 then
        let segname := asciiIgnore (rstripZeros (pySlice data (cmdOff + 8) 16))
        if segname = chars "__TEXT" then
          match readU32LE data (cmdOff + 64) with
          | none => .error .structError
          | some nsects =>
            match machoSectLoop data nsects (cmdOff + 72) with
            | .error e => .error e
            | .ok (some r) => .ok (some r)
            | .ok none => machoCmdLoop data n (cmdOff + cmdsize)
        else machoCmdLoop data n (cmdOff + cmdsize)
      else machoCmdLoop data n (cmdOff + cmdsize)
    | _, _ => .error .structError

/-- `find_macho_const_section(data)`: `.ok none` models the `None, None`
return, `.error .structError` models an uncaught `struct.error`. -/
def find_macho_const_section (data : List Nat) : Except PyErr (Option (Nat × Nat)) :=
  if data.length < 32 then .ok none
  else
    match readU32LE data 0 with
    | none => .error .structError
    | some magic =>
      if magic = 4277009103 then
        match readU32LE data 16 with
        | none => .error .structError
        | some ncmds => machoCmdLoop data ncmds 32
      else .ok none

/-! ## `_find_qt_anchors` -/

/-- Why the scan of the name table ended. -/
inductive ScanStop where
  | sentinel   -- a length field of 0 or > 64
  | truncated  -- fewer than 6 bytes left in the buffer
  | decodeFail -- UnicodeDecodeError on the UTF-16-BE characters
  | fuelOut    -- fuel exhausted (unreachable with the fuel used below)
  deriving DecidableEq

/-- The name-table scan (steps 2+3 of `_find_qt_anchors`), fuel-indexed:
entries as `(relative offset, decoded name)`, the final relative offset,
and the reason the scan stopped.  Each step consumes at least 8 bytes of
the buffer, so `buf.length + 1` fuel can never run out. -/
def scanNamesF (buf : List Nat) (base : Nat) :
    Nat → Nat → List (Nat × List Char) × Nat × ScanStop
  | 0, off => ([], off, .fuelOut)
  | fuel + 1, off =>
    if buf.length < base + off + 6 then ([], off, .truncated)
    else if readU16BED buf (base + off) = 0 ∨ 64 < readU16BED buf (base + off) then
      ([], off, .sentinel)
    else
      match utf16beDecode (pySlice buf (base + off + 6) (2 * readU16BED buf (base + off))) with
      | none => ([], off, .decodeFail)
      | some nm =>
        ((off, nm) :: (scanNamesF buf base fuel (off + 6 + 2 * readU16BED buf (base + off))).1,
         (scanNamesF buf base fuel (off + 6 + 2 * readU16BED buf (base + off))).2.1,
         (scanNamesF buf base fuel (off + 6 + 2 * readU16BED buf (base + off))).2.2)

/-- The name-table scan of `_find_qt_anchors` starting at `base + off`. -/
def scanNames (buf : List Nat) (base : Nat) (off : Nat) :
    List (Nat × List Char) × Nat × ScanStop :=
  scanNamesF buf base (buf.length + 1) off

/-- The `name_by_off` dict: each entry recorded under both
`entryStart + 2` (hash field) and `entryStart + 6` (character field). -/
def nameMapOf (entries : List (Nat × List Char)) : List (Nat × List Char) :=
  entries.foldl (fun m e => dictSet (dictSet m (e.1 + 2) e.2) (e.1 + 6) e.2) []

/-- Inner run check of the data-section search: five consecutive
size-prefixed blobs whose sizes lie in `[1000, 2_000_000]`.  The read at
`run` is an unchecked `unpack_from` and can raise. -/
def dataRun (buf : List Nat) : Nat → Nat → Except PyErr Bool
  | _, 0 => .ok true
  | run, remaining + 1 =>
    match readU32BE buf run with
    | none => .error .structError
    | some s =>
      if 1000 ≤ s ∧ s ≤ 2000000 then dataRun buf (run + 4 + s) remaining
      else .ok false

/-- Step 4 of `_find_qt_anchors`, fuel-indexed: scan forward from the end
of the name table in 2-byte steps for the start of the data section.  The
scan position advances by 2 each step, so `buf.length + 1` fuel can never
run out before the loop guard fails. -/
def dataSearchF (buf : List Nat) : Nat → Nat → Except PyErr (Option Nat)
  | 0, _ => .ok none
  | fuel + 1, search =>
    if search < buf.length - 8 then
      let size := readU32BED buf search
      if size = 0 then dataSearchF buf fuel (search + 2)
      else if 1000 ≤ size ∧ size ≤ 2000000 then
        match dataRun buf search 5 with
        | .error e => .error e
        | .ok true => .ok (some search)
        | .ok false => dataSearchF buf fuel (search + 2)
      else dataSearchF buf fuel (search + 2)
    else .ok none

/-- The data-section search of `_find_qt_anchors`. -/
def dataSearch (buf : List Nat) (search : Nat) : Except PyErr (Option Nat) :=
  dataSearchF buf (buf.length + 1) search

/-- Step 5 of `_find_qt_anchors`, fuel-indexed: scan backward from the
name-table start in 2-byte steps (candidates strictly above `stopv`) for a
plausible root directory record.  The candidate shrinks by 2 each step, so
`c + 1` fuel can never run out before the loop guard fails. -/
def treeAnchorScanF (buf : List Nat) (stopv : Nat) :
    Nat → Nat → Except PyErr (Option Nat)
  | 0, _ => .ok none
  | fuel + 1, c =>
    if stopv < c then
      match readU16BE buf (c + 4) with
      | none => .error .structError
      | some flags =>
        if flags ≠ 2 then treeAnchorScanF buf stopv fuel (c - 2)
        else
          match readU32BE buf (c + 6), readU32BE buf (c + 10) with
          | some cnt, some fc =>
            if 2 ≤ cnt ∧ cnt ≤ 10 ∧ fc = 1 then .ok (some c)
            else treeAnchorScanF buf stopv fuel (c - 2)
          | _, _ => .error .structError
    else .ok none

/-- The backward tree-anchor scan of `_find_qt_anchors`. -/
def treeAnchorScan (buf : List Nat) (stopv : Nat) (c : Nat) : Except PyErr (Option Nat) :=
  treeAnchorScanF buf stopv (c + 1) c

/-- The tree-anchor stage: `None` becomes the `RuntimeError` raise
(`AnchorNotFound`).  Candidates run from `names_base - 14` down to
`max(0, names_base - 4000)` exclusive (natural subtraction models
Python's `max(0, ...)`). -/
def treeAnchorStage (buf : List Nat) (names_base : Nat) : Except PyErr Nat :=
  match treeAnchorScan buf (names_base - 4000) (names_base - 14) with
  | .error e => .error e
  | .ok (some c) => .ok c
  | .ok none => .error .anchorNotFound

/-- `struct.pack(">HI", 5, 0x006DEC92) + "fwusb".encode("utf-16-be")`. -/
def fwusbNeedle : List Nat :=
  [0, 5, 0, 109, 236, 146] ++ utf16beEncode (chars "fwusb")

/-- `_find_qt_anchors(const_data)`: returns
`(tree_base, names_base, data_base, name_by_off)` or the `RuntimeError`
(`AnchorNotFound`).  In the chars-only fallback the model assumes the hit
is at byte 6 or later (natural subtraction). -/
def find_qt_anchors (const_data : List Nat) :
    Except PyErr (Nat × Nat × Nat × List (Nat × List Char)) :=
  match (match listFind const_data fwusbNeedle with
         | some pos => Except.ok pos
         | none =>
           match listFind const_data (utf16beEncode (chars "fwusb")) with
           | some pos => Except.ok (pos - 6)
           | none => Except.error PyErr.anchorNotFound) with
  | .error e => .error e
  | .ok names_base =>
    let scan := scanNames const_data names_base 0
    let name_by_off := nameMapOf scan.1
    let names_end := names_base + scan.2.1
    match dataSearch const_data names_end with
    | .error e => .error e
    | .ok none => .error .anchorNotFound
    | .ok (some data_base) =>
      match treeAnchorStage const_data names_base with
      | .error e => .error e
      | .ok tree_base => .ok (tree_base, names_base, data_base, name_by_off)

/-! ## Tree walking (`_read_tree_entry`, `_collect_dir_children`,
`_find_dir_by_content`) -/

/-- `_read_tree_entry(const_data, tree_base, idx)`:
`(name_off, flags, v1, v2)`. -/
def read_tree_entry (const_data : List Nat) (tree_base idx : Nat) :
    Except PyErr (Nat × Nat × Nat × Nat) :=
  let pos := tree_base + idx * 14
  match readU32BE const_data pos, readU16BE const_data (pos + 4),
        readU32BE const_data (pos + 6), readU32BE const_data (pos + 10) with
  | some nameOff, some flags, some v1, some v2 => .ok (nameOff, flags, v1, v2)
  | _, _, _, _ => .error .structError

/-- One child of a directory: `(name, blob, stored_size)`. -/
abbrev QtChild := List Char × List Nat × Nat

/-- The child loop of `_collect_dir_children`. -/
def collectChildrenLoop (const_data : List Nat) (tree_base data_base : Nat)
    (nameMap : List (Nat × List Char)) : Nat → Nat → Except PyErr (List QtChild)
  | _, 0 => .ok []
  | ci, n + 1 =>
    match read_tree_entry const_data tree_base ci with
    | .error e => .error e
    | .ok (nameOff, cflags, _, cv2) =>
      if cflags = 2 then collectChildrenLoop const_data tree_base data_base nameMap (ci + 1) n
      else
        let name := (dictGet nameMap nameOff).getD []
        let absData := data_base + cv2
        if const_data.length < absData + 4 then
          collectChildrenLoop const_data tree_base data_base nameMap (ci + 1) n
        else
          let storedSize := readU32BED const_data absData
          if storedSize = 0 ∨ 2000000 < storedSize then
            collectChildrenLoop const_data tree_base data_base nameMap (ci + 1) n
          else
            match collectChildrenLoop const_data tree_base data_base nameMap (ci + 1) n with
            | .error e => .error e
            | .ok rest =>
              .ok ((name, pySlice const_data (absData + 4) storedSize, storedSize) :: rest)

/-- `_collect_dir_children(const_data, tree_base, data_base, name_by_off, dir_idx)`. -/
def collect_dir_children (const_data : List Nat) (tree_base data_base : Nat)
    (nameMap : List (Nat × List Char)) (dirIdx : Nat) : Except PyErr (List QtChild) :=
  match read_tree_entry const_data tree_base dirIdx with
  | .error e => .error e
  | .ok (_, flags, count, firstChild) =>
    if flags ≠ 2 then .ok []
    else collectChildrenLoop const_data tree_base data_base nameMap firstChild count

/-- The child loop of `_find_dir_by_content`. -/
def findDirLoop (const_data : List Nat) (tree_base data_base : Nat)
    (nameMap : List (Nat × List Char)) (fwNames : List (List Char)) :
    Nat → Nat → Except PyErr (Option Nat × List QtChild)
  | _, 0 => .ok (none, [])
  | ci, n + 1 =>
    match read_tree_entry const_data tree_base ci with
    | .error e => .error e
    | .ok (_, cflags, _, _) =>
      if cflags ≠ 2 then findDirLoop const_data tree_base data_base nameMap fwNames (ci + 1) n
      else
        match collect_dir_children const_data tree_base data_base nameMap ci with
        | .error e => .error e
        | .ok children =>
          if children.any (fun c => fwNames.any (fun n0 => decide (n0 = c.1))) then
            .ok (some ci, children)
          else findDirLoop const_data tree_base data_base nameMap fwNames (ci + 1) n

/-- `_find_dir_by_content(const_data, tree_base, data_base, name_by_off,
root_idx, fw_names)`. -/
def find_dir_by_content (const_data : List Nat) (tree_base data_base : Nat)
    (nameMap : List (Nat × List Char)) (rootIdx : Nat) (fwNames : List (List Char)) :
    Except PyErr (Option Nat × List QtChild) :=
  match read_tree_entry const_data tree_base rootIdx with
  | .error e => .error e
  | .ok (_, flags, count, firstChild) =>
    if flags ≠ 2 then .ok (none, [])
    else findDirLoop const_data tree_base data_base nameMap fwNames firstChild count

/-! ## Mach-O firmware extraction (`_extract_macho_firmware`) -/

/-- Python `sorted()` on the `(name, blob, stored_size)` child tuples. -/
def childLe (a b : QtChild) : Bool :=
  if a.1 = b.1 then
    (if a.2.1 = b.2.1 then decide (a.2.2 ≤ b.2.2) else bytesLe a.2.1 b.2.1)
  else charsLe a.1 b.1

/-- `f"fwfpga/{m}"`. -/
def fpgaKey (m : List Char) : List Char := chars "fwfpga/" ++ m

/-- One step of the by-name resolution loop over the sorted FPGA children:
known models are entered into the resources dict, the rest are collected
in the `unresolved` list in encounter order. -/
def fpgaResolveStep (acc : ResourceDict × List (List Char × List Nat)) (c : QtChild) :
    ResourceDict × List (List Char × List Nat) :=
  if FPGA_MODELS.any (fun n0 => decide (n0 = c.1)) then
    (dictSet acc.1 (fpgaKey c.1) (c.2.1, false), acc.2)
  else (acc.1, acc.2 ++ [(c.1, c.2.1)])

/-- The by-name phase of the FPGA classifier. -/
def fpgaResolve (res0 : ResourceDict) (children : List QtChild) :
    ResourceDict × List (List Char × List Nat) :=
  children.foldl fpgaResolveStep (res0, [])

/-- `{p[len("fwfpga/"):] for p in resources if p.startswith("fwfpga/")}`. -/
def extractedModels (res : ResourceDict) : List (List Char) :=
  res.filterMap (fun kv =>
    if (chars "fwfpga/").isPrefixOf kv.1 then some (kv.1.drop 7) else none)

/-- `sorted(_FPGA_MODELS - extracted_models)`. -/
def missingOf (res : ResourceDict) : List (List Char) :=
  pySort charsLe (FPGA_MODELS.filter
    (fun m => ¬ (extractedModels res).any (fun n0 => decide (n0 = m))))

/-- The elimination loop: the i-th unresolved blob is assigned to the i-th
missing model while `i < len(missing)`; the rest are dropped. -/
def elimAssign (missing : List (List Char)) :
    ResourceDict → Nat → List (List Char × List Nat) → ResourceDict
  | res, _, [] => res
  | res, i, (_, blob) :: rest =>
    elimAssign missing
      (if i < missing.length then dictSet res (fpgaKey (missing.getD i [])) (blob, false)
       else res)
      (i + 1) rest

/-- The whole FPGA branch of `_extract_macho_firmware` on the already
sorted children: by-name resolution followed by assignment-by-elimination. -/
def fpgaPhase (res0 : ResourceDict) (children : List QtChild) : ResourceDict :=
  elimAssign (missingOf (fpgaResolve res0 children).1)
    (fpgaResolve res0 children).1 0 (fpgaResolve res0 children).2

/-- `_extract_macho_firmware(const_data, tree_base, data_base, name_by_off,
output_dir)` with the final writes collected as `(filename, bytes)`. -/
def extract_macho_firmware (inflate : List Nat → Option (List Nat))
    (const_data : List Nat) (tree_base data_base : Nat)
    (nameMap : List (Nat × List Char)) : Except PyErr (List (List Char × List Nat)) :=
  match find_dir_by_content const_data tree_base data_base nameMap 0 CYPRESS_FW_NAMES with
  | .error e => .error e
  | .ok (fwusbIdx, fwusbChildren) =>
    let res1 : ResourceDict :=
      match fwusbIdx with
      | some _ =>
        (pySort childLe fwusbChildren).foldl
          (fun r c =>
            if (chars "fw").isPrefixOf c.1 then
              dictSet r (chars "fwusb/" ++ c.1) (c.2.1, false)
            else r) []
      | none => []
    match find_dir_by_content const_data tree_base data_base nameMap 0 FPGA_MODELS with
    | .error e => .error e
    | .ok (fpgaIdx, fpgaChildren) =>
      let res2 :=
        match fpgaIdx with
        | some _ => fpgaPhase res1 (pySort childLe fpgaChildren)
        | none => res1
      write_firmware_files inflate res2

/-- The Mach-O anchor pipeline after a successful section lookup:
`_find_qt_anchors` then `_extract_macho_firmware`. -/
def macho_extract_pipeline (inflate : List Nat → Option (List Nat))
    (const_data : List Nat) : Except PyErr (List (List Char × List Nat)) :=
  match find_qt_anchors const_data with
  | .error e => .error e
  | .ok (tree_base, _, data_base, nameMap) =>
    extract_macho_firmware inflate const_data tree_base data_base nameMap

/-! ## ELF Qt-resource walk (`_elf_read_qt_resources` and helpers) -/

/-- One entry of the flat Qt resource table. -/
inductive QtEntry where
  | dir (name : List Char) (flags count firstChild : Nat)
  | file (name : List Char) (flags country language dataOff : Nat)
  deriving DecidableEq

/-- `_qt_resource_name(res_names, offset)`. -/
def qt_resource_name (res_names : List Nat) (offset : Nat) : Except PyErr (List Char) :=
  match readU16BE res_names offset with
  | none => .error .structError
  | some length =>
    match utf16beDecode (pySlice res_names (offset + 6) (2 * length)) with
    | none => .error .decodeFailure
    | some nm => .ok nm

/-- `_qt_resource_data(res_datas, offset)`. -/
def qt_resource_data (res_datas : List Nat) (offset : Nat) : Except PyErr (List Nat) :=
  match readU32BE res_datas offset with
  | none => .error .structError
  | some length => .ok (pySlice res_datas (offset + 4) length)

/-- The flat-table parse loop of `_elf_read_qt_resources`, fuel-indexed:
entries are 14 bytes, the loop stops when fewer than 14 bytes remain.  The
offset advances by 14 each step, so `res_struct.length + 1` fuel can never
run out before the loop guard fails. -/
def parseQtTableF (res_struct res_names : List Nat) :
    Nat → Nat → Except PyErr (List QtEntry)
  | 0, _ => .ok []
  | fuel + 1, offset =>
    if res_struct.length ≤ offset then .ok []
    else if res_struct.length < offset + 14 then .ok []
    else
      let nameOffset := readU32BED res_struct offset
      let flags := readU16BED res_struct (offset + 4)
      match qt_resource_name res_names nameOffset with
      | .error e => .error e
      | .ok name =>
        if flags.testBit 1 then
          match parseQtTableF res_struct res_names fuel (offset + 14) with
          | .error e => .error e
          | .ok rest =>
            .ok (.dir name flags (readU32BED res_struct (offset + 6))
                   (readU32BED res_struct (offset + 10)) :: rest)
        else
          match parseQtTableF res_struct res_names fuel (offset + 14) with
          | .error e => .error e
          | .ok rest =>
            .ok (.file name flags (readU16BED res_struct (offset + 6))
                   (readU16BED res_struct (offset + 8))
                   (readU32BED res_struct (offset + 10)) :: rest)

/-- The flat-table parse of `_elf_read_qt_resources`. -/
def parseQtTable (res_struct res_names : List Nat) (offset : Nat) :
    Except PyErr (List QtEntry) :=
  parseQtTableF res_struct res_names (res_struct.length + 1) offset

/-- `("/".join pieces).lstrip("/")` step: `(prefix + "/" + name).lstrip("/")`. -/
def joinPath (prefixPath name : List Char) : List Char :=
  (prefixPath ++ [Char.ofNat 47] ++ name).dropWhile (· = Char.ofNat 47)

/-- Depth-first `collect` of `_elf_read_qt_resources`, as an explicit
preorder worklist (same visit order and dict-write order as the Python
recursion); the fuel models Python's recursion limit. -/
def collectRes (table : List QtEntry) (res_datas : List Nat) :
    Nat → List (Nat × List Char) → ResourceDict → Except PyErr ResourceDict
  | _, [], res => .ok res
  | 0, _ :: _, _ => .error .recursionError
  | fuel + 1, (idx, prefixPath) :: todo, res =>
    match table.get? idx with
    | none => .error .indexError
    | some (.dir name _ childCount firstChild) =>
      collectRes table res_datas fuel
        (((List.range childCount).map (fun i => (firstChild + i, joinPath prefixPath name))) ++ todo)
        res
    | some (.file name flags _ _ dataOff) =>
      match qt_resource_data res_datas dataOff with
      | .error e => .error e
      | .ok raw =>
        collectRes table res_datas fuel todo
          (dictSet res (joinPath prefixPath name) (raw, flags.testBit 0))

/-- `_elf_read_qt_resources(res_struct, res_names, res_datas)`. -/
def elf_read_qt_resources (res_struct res_names res_datas : List Nat) :
    Except PyErr ResourceDict :=
  match parseQtTable res_struct res_names 0 with
  | .error e => .error e
  | .ok table => collectRes table res_datas 1000000 [(0, [])] []

/-- The ELF pipeline after successful symbol resolution: the three symbol
byte ranges are walked and written (`extract_from_elf` body after
`_elf_sym_bytes`). -/
def elf_extract_resources (inflate : List Nat → Option (List Nat))
    (res_struct res_names res_datas : List Nat) :
    Except PyErr (List (List Char × List Nat)) :=
  match elf_read_qt_resources res_struct res_names res_datas with
  | .error e => .error e
  | .ok resources => write_firmware_files inflate resources

/-! ## Claim-side models (stated from the specification's words, for
comparison against the embedded code) -/

/-- Does record `r` cover byte position `p`? -/
def coversB (p : Nat) (r : Nat × List Nat) : Bool :=
  decide (r.1 ≤ p) && decide (p < r.1 + r.2.length)

/-- The byte that the last record (in list order) covering `p` puts there,
`0` if none covers it. -/
def lastCoverVal (sorted : List (Nat × List Nat)) (p : Nat) : Nat :=
  match sorted.reverse.find? (coversB p) with
  | some r => r.2.getD (p - r.1) 0
  | none => 0

/-- Address-only comparison (the sort the spec claims: stable on address,
ties keep input order). -/
def addrLe (p q : Nat × List Nat) : Bool := decide (p.1 ≤ q.1)

/-- Modelled from the claim's words (C4): records sorted stably by address
only, image length fixed to the last record's `address + len(data)`,
records copied in sorted order with last-write-wins inside that length. -/
def claimedHexImage (recs : List (Nat × List Nat)) : List Nat :=
  (List.range (((pySort addrLe recs).getLastD (0, [])).1 +
      ((pySort addrLe recs).getLastD (0, [])).2.length)).map
    (lastCoverVal (pySort addrLe recs))

/-- `max(address + len(data))` over the records. -/
def maxSpan (recs : List (Nat × List Nat)) : Nat :=
  recs.foldl (fun m r => max m (r.1 + r.2.length)) 0

/-- The amended decode model (C4): records sorted lexicographically by
`(address, data)` — ties on address ordered by data bytes — copied in that
order with last-write-wins, the image growing when a record overruns, so
the final length is `max(address + len(data))` over all records. -/
def amendedHexImage (recs : List (Nat × List Nat)) : List Nat :=
  (List.range (maxSpan recs)).map
    (lastCoverVal (List.insertionSort (fun a b => recLe a b = true) recs))

/-- A line that yields no data record and cannot raise: blank, not a
`:` line, hex-undecodable, or a well-formed (≥ 4 byte) non-data record. -/
def lineNoData (ln : List Nat) : Bool :=
  if (pyStrip ln).take 1 ≠ [58] then true
  else
    match hexDecode ((pyStrip ln).drop 1) with
    | none => true
    | some record =>
      if record.length < 4 then false
      else !(record.getD 3 0 = 0 && 0 < record.getD 0 0)

/-- The claim-side candidate list for the tree anchor (C9): from
`names_base - 14` downward in 2-byte steps, strictly above
`max(0, names_base - 4000)`. -/
def claimTreeCandidates (names_base : Nat) : List Nat :=
  (List.range (((names_base - 14) - (names_base - 4000) + 1) / 2)).map
    (fun k => (names_base - 14) - 2 * k)

/-- The claim-side plausibility test for a tree-anchor candidate (C9):
flags at `+4` equal 2, child count at `+6` in `[2,10]`, first-child index
at `+10` equal 1. -/
def treePredB (buf : List Nat) (c : Nat) : Bool :=
  readU16BED buf (c + 4) = 2 &&
    (2 ≤ readU32BED buf (c + 6) && readU32BED buf (c + 6) ≤ 10) &&
    readU32BED buf (c + 10) = 1

/-! ## Concrete inputs -/

/-- The spec's worked Intel HEX example. -/
def c3Input : List Nat := hexBytes ":0300300002337A1E\n:00000001FF"

/-- Two data records at the same address whose data bytes invert their
input order under tuple comparison. -/
def c4InputA : List Nat := hexBytes ":0100100009E6\n:020010000505E4\n:00000001FF"

/-- An early long record overlapping a later short one: the bytearray
grows past the computed length. -/
def c4InputB : List Nat :=
  hexBytes ":0A000000AAAAAAAAAAAAAAAAAAAA4C\n:010005009961\n:00000001FF"

/-- A `:` line whose hex payload decodes to fewer than 4 bytes. -/
def c5Input : List Nat := hexBytes ":00"

/-- Garbage plus a well-formed end-of-file record: no data records. -/
def c5Witness : List Nat := hexBytes "hello\n:00000001FF"

/-- A 32-byte buffer with the 64-bit Mach-O magic and `ncmds = 1`: the
first load-command read is past the end of the buffer. -/
def c1Input : List Nat :=
  [207, 250, 237, 254] ++ List.replicate 12 0 ++ [1, 0, 0, 0] ++ List.replicate 12 0

/-- Decompression that always fails (models invalid zlib payloads). -/
def inflateNone : List Nat → Option (List Nat) := fun _ => none

/-- A compressed resource whose zlib payload is invalid. -/
def c6ResCompressed : ResourceDict :=
  [(chars "fwusb/fw01A1", (List.replicate 4 0 ++ [1, 2, 3], false)),
   (chars "fwusb/fw01A2", (List.replicate 8 1, true))]

/-- An FPGA blob with a zlib signature at offset 4 but an invalid stream. -/
def c6FpgaBlob : List Nat := [0, 0, 0, 0, 120, 156] ++ List.replicate 1000 5

def c6ResFpga : ResourceDict := [(chars "fwfpga/LA2016", (c6FpgaBlob, false))]

/-- C2 container, tree region: root directory (2 children), `fwusb`
directory (1 child), a file child of the root and the `fw01A2` file.
Name offsets are entry starts (the convention `_qt_resource_name` reads). -/
def c2TreeBytes : List Nat :=
  [0, 0, 0, 16,  0, 2,  0, 0, 0, 2,  0, 0, 0, 1] ++
  [0, 0, 0, 0,   0, 2,  0, 0, 0, 1,  0, 0, 0, 3] ++
  [0, 0, 0, 0,   0, 0,  0, 0, 0, 0,  0, 0, 0, 0] ++
  [0, 0, 0, 16,  0, 0,  0, 0, 0, 0,  0, 0, 0, 0]

/-- C2 container, name region: the `fwusb` entry (with its known hash)
followed by the `fw01A2` entry. -/
def c2NamesBytes : List Nat :=
  [0, 5, 0, 109, 236, 146] ++ utf16beEncode (chars "fwusb") ++
  [0, 6, 0, 0, 0, 0] ++ utf16beEncode (chars "fw01A2")

/-- The firmware payload of the C2 container. -/
def c2Blob : List Nat := [65, 66, 67, 68]

/-- C2 container, data region: one size-prefixed 4-byte blob. -/
def c2DataBytes : List Nat := [0, 0, 0, 4] ++ c2Blob

/-- The C2 container laid out as a Mach-O `__const` section (2 bytes of
padding so the root record is reachable by the backward scan). -/
def c2Const : List Nat := [0, 0] ++ c2TreeBytes ++ c2NamesBytes ++ c2DataBytes

/-- The name index the anchor strategy builds on the C2 container. -/
def c2NameMap : List (Nat × List Char) :=
  nameMapOf (scanNames c2Const 58 0).1

/-- A names buffer ending in an explicit zero-length sentinel entry. -/
def c8Buf : List Nat := c2NamesBytes ++ List.replicate 6 0

/-- Children list for the elimination-phase witness: one model resolved by
name, two unresolved. -/
def c10Children : List QtChild :=
  [(chars "LA2016", [1, 2, 3], 3), (chars "XX", [7], 1), (chars "YY", [8], 1)]

/-- The image `_intel_hex_to_blob` builds from its collected records:
sort (Python tuple order), take the last record's `address + len(data)` as
the initial length, then copy each record in sorted order. -/
def codeImage (recs : List (Nat × List Nat)) : List Nat :=
  buildImg
    (List.replicate (((pySort recLe recs).getLastD (0, [])).1 +
      ((pySort recLe recs).getLastD (0, [])).2.length) 0)
    (pySort recLe recs)

deriving instance DecidableEq for Except

set_option maxRecDepth 8000

/-! # Theorems -/

/-- Claim C1 (code_bug evidence): `find_macho_const_section` performs
unchecked multi-byte reads.  On a 32-byte buffer carrying the 64-bit
Mach-O magic and a load-command count of 1, the first load-command read
(`struct.unpack_from("<II", data, 32)`) is past the end of the buffer and
raises `struct.error` — the function neither returns a section nor the
structural `(None, None)` result, contradicting the claim that every
multi-byte read is bounds-checked first. -/
theorem c1_macho_unchecked_read :
    find_macho_const_section c1Input = .error .structError ∧
    c1Input.length = 32 ∧
    readU32LE c1Input 0 = some 4277009103 := by
  refine ⟨by decide, by decide, by decide⟩

/-- Claim C2 (code_bug evidence): on one container embedded both ways —
tree bytes `c2TreeBytes`, name bytes `c2NamesBytes`, data bytes
`c2DataBytes`, with every tree `name_off` stored as a name-entry start —
the needle search, the name scan and the tree anchor of the Mach-O anchor
strategy all succeed (conjuncts 1–3; the data anchor additionally demands
five ≥1000-byte blobs and then yields the data-section start, here byte 92
of `c2Const`), yet the symbol strategy resolves name offset 16 to
`fw01A2` while the anchor strategy's name index has no entry at 16
(conjuncts 4–5), so the anchor walk extracts nothing while the symbol walk
extracts `kingst-la-01a2.fw` (conjuncts 6–8): the two strategies do not
produce the same `(canonicalFilename, bytes)` set. -/
theorem c2_anchor_vs_symbol_divergence :
    listFind c2Const fwusbNeedle = some 58 ∧
    scanNames c2Const 58 0 =
      ([(0, chars "fwusb"), (16, chars "fw01A2")], 34, .sentinel) ∧
    treeAnchorStage c2Const 58 = .ok 2 ∧
    qt_resource_name c2NamesBytes 16 = .ok (chars "fw01A2") ∧
    dictGet c2NameMap 16 = none ∧
    extract_macho_firmware inflateNone c2Const 2 92 c2NameMap = .ok [] ∧
    elf_extract_resources inflateNone c2TreeBytes c2NamesBytes c2DataBytes =
      .ok [(chars "kingst-la-01a2.fw", c2Blob)] ∧
    (Except.ok [] : Except PyErr (List (List Char × List Nat))) ≠
      .ok [(chars "kingst-la-01a2.fw", c2Blob)] := by
  refine ⟨by decide, by decide, by decide, by decide, by decide, by decide, by decide,
    by decide⟩

/-- Claim C6 (code_bug evidence): a failing zlib decompression is not
recovered per-artifact.  On the `compressed`-flagged path the failure
propagates and aborts the whole write loop (first conjunct: the run dies
even though `fwusb/fw01A1` is a perfectly good artifact); on the FPGA
sniff path the failure is swallowed and the still-compressed blob is
written out verbatim (second conjunct), although its zlib signature
matched and decompression failed (third and fourth conjuncts). -/
theorem c6_decode_failure_aborts_or_writes_raw :
    write_firmware_files inflateNone c6ResCompressed = .error .decodeFailure ∧
    write_firmware_files inflateNone c6ResFpga =
      .ok [(chars "kingst-la2016-fpga.bitstream", c6FpgaBlob)] ∧
    zlibMagic (pySlice c6FpgaBlob 4 2) = true ∧
    inflateNone (c6FpgaBlob.drop 4) = none := by
  refine ⟨by decide, by decide, by decide, by decide⟩

/-- Claim C4 (counterexample): the decoder's sort is not stable on address
only.  For `c4InputA` the two records share address 16 and the code orders
them by their data bytes — the final image ends in `9, 5` where the
claimed stable-by-address model predicts `5, 5`.  For `c4InputB` an
earlier 10-byte record at address 0 overlaps the later record at 5, the
bytearray grows, and the final length is 10, not the claimed
`lastAddress + lastLength = 6`. -/
theorem c4_stable_sort_counterexample :
    collectRecords (splitNl c4InputA) = .ok [(16, [9]), (16, [5, 5])] ∧
    intel_hex_to_blob c4InputA = .ok (List.replicate 16 0 ++ [9, 5]) ∧
    claimedHexImage [(16, [9]), (16, [5, 5])] = List.replicate 16 0 ++ [5, 5] ∧
    intel_hex_to_blob c4InputA ≠ .ok (claimedHexImage [(16, [9]), (16, [5, 5])]) ∧
    collectRecords (splitNl c4InputB) = .ok [(0, List.replicate 10 170), (5, [153])] ∧
    intel_hex_to_blob c4InputB = .ok [170, 170, 170, 170, 170, 153, 170, 170, 170, 170] ∧
    (claimedHexImage [(0, List.replicate 10 170), (5, [153])]).length = 6 := by
  refine ⟨by decide, by decide, by decide, by decide, by decide, by decide, by decide⟩

/-- Claim C5 (counterexample): the decoder is not the identity on every
input without data records.  The input `":00"` yields no data record, but
its hex payload decodes to a single byte, so
`struct.unpack(">BHB", record[:4])` raises `struct.error` instead of
returning the input unchanged. -/
theorem c5_short_record_counterexample :
    collectRecords (splitNl c5Input) = .error .structError ∧
    intel_hex_to_blob c5Input = .error .structError ∧
    intel_hex_to_blob c5Input ≠ .ok c5Input := by
  refine ⟨by decide, by decide, by decide⟩

/-! ## Lemmas: Python dict -/

theorem find?_map_replace [DecidableEq α] (t : List (α × β)) (k k' : α) (v : β) (h : k' ≠ k) :
    (t.map (fun kv => if kv.1 = k then (k, v) else kv)).find? (fun kv => decide (kv.1 = k')) =
      t.find? (fun kv => decide (kv.1 = k')) := by
  have hkk : (decide (k = k') : Bool) = false := by
    simp only [decide_eq_false_iff_not]
    exact fun hh => h hh.symm
  induction t with
  | nil => rfl
  | cons hd t ih =>
    by_cases hk : hd.1 = k
    · rw [List.map_cons, if_pos hk, List.find?_cons_of_neg _ (by simp [hkk]),
        List.find?_cons_of_neg _ (by simp [hk]; exact fun hh => h hh.symm)]
      exact ih
    · rw [List.map_cons, if_neg hk]
      by_cases hd1 : hd.1 = k'
      · rw [List.find?_cons_of_pos _ (by simp [hd1]), List.find?_cons_of_pos _ (by simp [hd1])]
      · rw [List.find?_cons_of_neg _ (by simp [hd1]), List.find?_cons_of_neg _ (by simp [hd1])]
        exact ih

theorem find?_map_replace_self [DecidableEq α] (t : List (α × β)) (k : α) (v : β)
    (hc : k ∈ t.map Prod.fst) :
    (t.map (fun kv => if kv.1 = k then (k, v) else kv)).find? (fun kv => decide (kv.1 = k)) =
      some (k, v) := by
  induction t with
  | nil => simp at hc
  | cons hd t ih =>
    by_cases hk : hd.1 = k
    · simp [List.find?, hk]
    · have hc2 : k ∈ t.map Prod.fst := by
        rcases List.mem_cons.mp hc with h1 | h1
        · exact absurd h1.symm hk
        · exact h1
      simp only [List.map_cons, if_neg hk, List.find?]
      rw [show (decide (hd.1 = k) : Bool) = false by simp [hk]]
      exact ih hc2

theorem find?_key_eq_none [DecidableEq α] (t : List (α × β)) (k : α)
    (hc : k ∉ t.map Prod.fst) :
    t.find? (fun kv => decide (kv.1 = k)) = none := by
  rw [List.find?_eq_none]
  intro kv hkv hpred
  exact hc (List.mem_map.mpr ⟨kv, hkv, by simpa using hpred⟩)

theorem dictGet_dictSet_self [DecidableEq α] (m : List (α × β)) (k : α) (v : β) :
    dictGet (dictSet m k v) k = some v := by
  unfold dictSet
  by_cases hc : k ∈ m.map Prod.fst
  · rw [if_pos hc]
    unfold dictGet
    rw [find?_map_replace_self m k v hc]
    rfl
  · rw [if_neg hc]
    unfold dictGet
    rw [List.find?_append, find?_key_eq_none m k hc]
    simp [List.find?]

theorem dictGet_dictSet_ne [DecidableEq α] (m : List (α × β)) (k k' : α) (v : β)
    (h : k' ≠ k) : dictGet (dictSet m k v) k' = dictGet m k' := by
  unfold dictSet
  by_cases hc : k ∈ m.map Prod.fst
  · rw [if_pos hc]
    unfold dictGet
    rw [find?_map_replace m k k' v h]
  · rw [if_neg hc]
    unfold dictGet
    rw [List.find?_append]
    cases hf : m.find? (fun kv => decide (kv.1 = k')) with
    | some s => rfl
    | none =>
      simp [List.find?, show (decide (k = k') : Bool) = false by
        simp only [decide_eq_false_iff_not]; exact fun hh => h hh.symm]

theorem dictGet_dictSet_cases [DecidableEq α] (m : List (α × β)) (k k' : α) (v : β) (v' : β)
    (h : dictGet (dictSet m k v) k' = some v') : k' = k ∨ dictGet m k' = some v' := by
  by_cases hk : k' = k
  · exact Or.inl hk
  · right; rw [dictGet_dictSet_ne m k k' v hk] at h; exact h

theorem dictGet_some_key_mem [DecidableEq α] (m : List (α × β)) (k : α) (v : β)
    (h : dictGet m k = some v) : k ∈ m.map Prod.fst := by
  unfold dictGet at h
  cases hf : m.find? (fun kv => decide (kv.1 = k)) with
  | none => rw [hf] at h; simp at h
  | some kv =>
    have := List.find?_some hf
    have hm := List.mem_of_find?_eq_some hf
    exact List.mem_map.mpr ⟨kv, hm, by simpa using this⟩

theorem dictGet_mem_pair [DecidableEq α] (m : List (α × β)) (k : α) (v : β)
    (h : dictGet m k = some v) : (k, v) ∈ m := by
  unfold dictGet at h
  cases hf : m.find? (fun kv => decide (kv.1 = k)) with
  | none => rw [hf] at h; simp at h
  | some kv =>
    rw [hf] at h
    have hp := List.find?_some hf
    have hm := List.mem_of_find?_eq_some hf
    have hk : kv.1 = k := by simpa using hp
    have hv : kv.2 = v := by simpa using h
    have : kv = (k, v) := by
      cases kv; simp_all
    rwa [this] at hm

/-! ## Lemmas: stable sort, spans and image building -/

theorem pyInsert_perm (le : α → α → Bool) (a : α) (l : List α) :
    (pyInsert le a l).Perm (a :: l) := by
  induction l with
  | nil => exact List.Perm.refl _
  | cons b t ih =>
    simp only [pyInsert]
    split
    · exact List.Perm.refl _
    · exact (ih.cons b).trans (List.Perm.swap a b t)

theorem pySort_perm (le : α → α → Bool) (l : List α) : (pySort le l).Perm l := by
  induction l with
  | nil => exact List.Perm.refl _
  | cons a t ih => exact (pyInsert_perm le a (pySort le t)).trans (ih.cons a)

theorem pyInsert_mem (le : α → α → Bool) (a x : α) (l : List α) :
    x ∈ pyInsert le a l ↔ x = a ∨ x ∈ l := by
  rw [(pyInsert_perm le a l).mem_iff, List.mem_cons]

theorem pyInsert_pairwise (le : α → α → Bool)
    (htot : ∀ a b, le a b = true ∨ le b a = true)
    (htrans : ∀ a b c, le a b = true → le b c = true → le a c = true)
    (a : α) (l : List α) (hl : l.Pairwise (fun x y => le x y = true)) :
    (pyInsert le a l).Pairwise (fun x y => le x y = true) := by
  induction l with
  | nil => simp [pyInsert]
  | cons b t ih =>
    rcases List.pairwise_cons.mp hl with ⟨hb, ht⟩
    simp only [pyInsert]
    split
    · rename_i hab
      refine List.pairwise_cons.mpr ⟨?_, hl⟩
      intro y hy
      rcases List.mem_cons.mp hy with rfl | hyt
      · exact hab
      · exact htrans a b y hab (hb y hyt)
    · rename_i hab
      refine List.pairwise_cons.mpr ⟨?_, ih ht⟩
      intro y hy
      rcases (pyInsert_mem le a y t).mp hy with h1 | hyt
      · rw [h1]
        rcases htot a b with h2 | h2
        · exact absurd h2 hab
        · exact h2
      · exact hb y hyt

theorem pySort_pairwise (le : α → α → Bool)
    (htot : ∀ a b, le a b = true ∨ le b a = true)
    (htrans : ∀ a b c, le a b = true → le b c = true → le a c = true)
    (l : List α) : (pySort le l).Pairwise (fun x y => le x y = true) := by
  induction l with
  | nil => simp [pySort]
  | cons a t ih => exact pyInsert_pairwise le htot htrans a (pySort le t) ih

theorem getLastD_mem (l : List α) (d : α) (h : l ≠ []) : l.getLastD d ∈ l := by
  induction l generalizing d with
  | nil => exact absurd rfl h
  | cons a t ih =>
    cases t with
    | nil => simp
    | cons b t2 =>
      rw [List.getLastD_cons]
      exact List.mem_cons_of_mem a (ih a (by simp))

theorem getLastD_irrel (l : List α) (d d' : α) (h : l ≠ []) :
    l.getLastD d = l.getLastD d' := by
  cases l with
  | nil => exact absurd rfl h
  | cons a t => rw [List.getLastD_cons, List.getLastD_cons]

theorem pairwise_rel_getLastD {P : α → α → Prop} (l : List α) (d : α)
    (hp : l.Pairwise P) (x : α) (hx : x ∈ l) :
    x = l.getLastD d ∨ P x (l.getLastD d) := by
  induction l generalizing d with
  | nil => cases hx
  | cons a t ih =>
    rcases List.pairwise_cons.mp hp with ⟨ha, ht⟩
    cases t with
    | nil =>
      left
      simpa using List.mem_singleton.mp hx
    | cons b t2 =>
      rw [List.getLastD_cons]
      rcases List.mem_cons.mp hx with rfl | hxt
      · exact Or.inr (ha _ (getLastD_mem (b :: t2) x (by simp)))
      · exact ih a ht hxt

theorem foldl_max_shift (f : Nat × List Nat → Nat) (l : List (Nat × List Nat)) (X : Nat) :
    l.foldl (fun m r => max m (f r)) X = max X (l.foldl (fun m r => max m (f r)) 0) := by
  induction l generalizing X with
  | nil => simp
  | cons r t ih =>
    simp only [List.foldl_cons]
    rw [ih, ih (max 0 (f r))]
    omega

theorem maxSpan_cons (r : Nat × List Nat) (l : List (Nat × List Nat)) :
    maxSpan (r :: l) = max (r.1 + r.2.length) (maxSpan l) := by
  simp only [maxSpan, List.foldl_cons]
  rw [foldl_max_shift (fun r => r.1 + r.2.length)]
  omega

theorem maxSpan_perm {l l' : List (Nat × List Nat)} (h : l.Perm l') :
    maxSpan l = maxSpan l' := by
  induction h with
  | nil => rfl
  | cons x _ ih => rw [maxSpan_cons, maxSpan_cons, ih]
  | swap x y l => rw [maxSpan_cons, maxSpan_cons, maxSpan_cons, maxSpan_cons]; omega
  | trans _ _ ih1 ih2 => exact ih1.trans ih2

theorem span_le_maxSpan {r : Nat × List Nat} {l : List (Nat × List Nat)} (h : r ∈ l) :
    r.1 + r.2.length ≤ maxSpan l := by
  induction l with
  | nil => cases h
  | cons a t ih =>
    rw [maxSpan_cons]
    rcases List.mem_cons.mp h with rfl | ht
    · omega
    · have := ih ht; omega

theorem sliceAssign_length (img : List Nat) (off : Nat) (part : List Nat)
    (h : off ≤ img.length) :
    (sliceAssign img off part).length = max img.length (off + part.length) := by
  simp only [sliceAssign, List.length_append, List.length_take, List.length_drop]
  omega

theorem sliceAssign_getD (img : List Nat) (off : Nat) (part : List Nat)
    (h : off ≤ img.length) (p : Nat) :
    (sliceAssign img off part).getD p 0 =
      if off ≤ p ∧ p < off + part.length then part.getD (p - off) 0 else img.getD p 0 := by
  have hmin : min off img.length = off := by omega
  have hlt : (img.take off).length = off := by simp [List.length_take]; omega
  simp only [sliceAssign, hmin, List.getD_eq_getElem?_getD, List.append_assoc]
  rw [List.getElem?_append, hlt]
  by_cases h1 : p < off
  · rw [if_pos h1, List.getElem?_take, if_pos h1, if_neg (by omega)]
  · rw [if_neg h1, List.getElem?_append]
    by_cases h2 : p - off < part.length
    · rw [if_pos h2, if_pos (by omega)]
    · rw [if_neg h2, if_neg (by omega), List.getElem?_drop]
      by_cases h3 : off + part.length ≤ img.length
      · rw [show min (off + part.length) img.length + (p - off - part.length) = p from by omega]
      · rw [show min (off + part.length) img.length = img.length from by omega]
        rw [List.getElem?_eq_none (l := img) (by omega),
          List.getElem?_eq_none (l := img) (by omega)]

theorem coversB_iff (p : Nat) (r : Nat × List Nat) :
    coversB p r = true ↔ r.1 ≤ p ∧ p < r.1 + r.2.length := by
  simp [coversB]

theorem buildImg_cons (init : List Nat) (r : Nat × List Nat) (t : List (Nat × List Nat)) :
    buildImg init (r :: t) = buildImg (sliceAssign init r.1 r.2) t := rfl

theorem buildImg_length (datas : List (Nat × List Nat)) (init : List Nat)
    (h : ∀ r ∈ datas, r.1 ≤ init.length) :
    (buildImg init datas).length =
      datas.foldl (fun m r => max m (r.1 + r.2.length)) init.length := by
  induction datas generalizing init with
  | nil => rfl
  | cons r t ih =>
    have hr : r.1 ≤ init.length := h r (List.mem_cons_self r t)
    have hlen := sliceAssign_length init r.1 r.2 hr
    rw [buildImg_cons, List.foldl_cons, ih]
    · rw [hlen]
    · intro s hs
      rw [hlen]
      have := h s (List.mem_cons_of_mem r hs)
      omega

theorem buildImg_getD (datas : List (Nat × List Nat)) (init : List Nat)
    (h : ∀ r ∈ datas, r.1 ≤ init.length) (p : Nat) :
    (buildImg init datas).getD p 0 =
      match datas.reverse.find? (coversB p) with
      | some r => r.2.getD (p - r.1) 0
      | none => init.getD p 0 := by
  induction datas generalizing init with
  | nil => simp [buildImg]
  | cons r t ih =>
    have hr : r.1 ≤ init.length := h r (List.mem_cons_self r t)
    have hbound : ∀ s ∈ t, s.1 ≤ (sliceAssign init r.1 r.2).length := by
      intro s hs
      rw [sliceAssign_length init r.1 r.2 hr]
      have := h s (List.mem_cons_of_mem r hs)
      omega
    rw [buildImg_cons, ih _ hbound, List.reverse_cons, List.find?_append]
    cases hf : t.reverse.find? (coversB p) with
    | some s => simp [Option.or]
    | none =>
      simp only [Option.or]
      rw [sliceAssign_getD init r.1 r.2 hr p]
      by_cases hc : coversB p r = true
      · rw [List.find?_cons_of_pos _ hc]
        rw [if_pos ((coversB_iff p r).mp hc)]
      · rw [List.find?_cons_of_neg _ (by simpa using hc), List.find?_nil]
        rw [if_neg (fun hx => hc ((coversB_iff p r).mpr hx))]

theorem bytesLe_total : ∀ a b : List Nat, bytesLe a b = true ∨ bytesLe b a = true
  | [], _ => Or.inl rfl
  | _ :: _, [] => Or.inr rfl
  | a :: as_, b :: bs => by
    by_cases h1 : a < b
    · left; simp [bytesLe, h1]
    · by_cases h2 : b < a
      · right; simp [bytesLe, h2, h1]
      · have : ¬ a < b ∧ ¬ b < a := ⟨h1, h2⟩
        rcases bytesLe_total as_ bs with h | h
        · left; simp [bytesLe, h1, h2, h]
        · right; simp [bytesLe, h1, h2, h]

theorem bytesLe_trans : ∀ a b c : List Nat,
    bytesLe a b = true → bytesLe b c = true → bytesLe a c = true
  | [], _, _, _, _ => rfl
  | a :: as_, [], c, hab, _ => by simp [bytesLe] at hab
  | a :: as_, b :: bs, [], _, hbc => by simp [bytesLe] at hbc
  | a :: as_, b :: bs, c :: cs, hab, hbc => by
    simp only [bytesLe] at hab hbc ⊢
    rcases Nat.lt_trichotomy a b with h1 | rfl | h1
    · rcases Nat.lt_trichotomy b c with h2 | rfl | h2
      · simp [show a < c from Nat.lt_trans h1 h2]
      · simp [h1]
      · simp [show ¬ b < c from by omega, h2] at hbc
    · have hab2 : bytesLe as_ bs = true := by simpa [Nat.lt_irrefl] using hab
      rcases Nat.lt_trichotomy a c with h2 | rfl | h2
      · simp [h2]
      · have hbc2 : bytesLe bs cs = true := by simpa [Nat.lt_irrefl] using hbc
        simp [Nat.lt_irrefl]
        exact bytesLe_trans as_ bs cs hab2 hbc2
      · simp [show ¬ a < c from by omega, h2] at hbc
    · simp [show ¬ a < b from by omega, h1] at hab

theorem recLe_total (p q : Nat × List Nat) : recLe p q = true ∨ recLe q p = true := by
  unfold recLe
  by_cases h1 : p.1 < q.1
  · left; simp [h1]
  · by_cases h2 : q.1 < p.1
    · right; simp [h2]
    · rcases bytesLe_total p.2 q.2 with h | h
      · left; simp [h1, h2, h]
      · right; simp [h1, h2, h]

theorem recLe_trans (p q s : Nat × List Nat)
    (hpq : recLe p q = true) (hqs : recLe q s = true) : recLe p s = true := by
  unfold recLe at *
  rcases Nat.lt_trichotomy p.1 q.1 with h1 | h1 | h1
  · rcases Nat.lt_trichotomy q.1 s.1 with h2 | h2 | h2
    · simp [show p.1 < s.1 from by omega]
    · simp [show p.1 < s.1 from by omega]
    · simp [show ¬ q.1 < s.1 from by omega, h2] at hqs
  · rcases Nat.lt_trichotomy q.1 s.1 with h2 | h2 | h2
    · simp [show p.1 < s.1 from by omega]
    · have hab2 : bytesLe p.2 q.2 = true := by
        simpa [show ¬ p.1 < q.1 from by omega, show ¬ q.1 < p.1 from by omega] using hpq
      have hbc2 : bytesLe q.2 s.2 = true := by
        simpa [show ¬ q.1 < s.1 from by omega, show ¬ s.1 < q.1 from by omega] using hqs
      simp [show ¬ p.1 < s.1 from by omega, show ¬ s.1 < p.1 from by omega]
      exact bytesLe_trans _ _ _ hab2 hbc2
    · simp [show ¬ q.1 < s.1 from by omega, h2] at hqs
  · simp [show ¬ p.1 < q.1 from by omega, h1] at hpq

theorem recLe_addr (p q : Nat × List Nat) (h : recLe p q = true) : p.1 ≤ q.1 := by
  unfold recLe at h
  by_cases h1 : p.1 < q.1
  · omega
  · by_cases h2 : q.1 < p.1
    · rw [if_neg h1, if_pos h2] at h
      exact absurd h (by simp)
    · omega

theorem pyInsert_eq_orderedInsert (le : α → α → Bool) (a : α) (l : List α) :
    pyInsert le a l = List.orderedInsert (fun x y => le x y = true) a l := by
  induction l with
  | nil => rfl
  | cons b t ih =>
    simp only [pyInsert, List.orderedInsert]
    rw [ih]

theorem pySort_eq_insertionSort (le : α → α → Bool) (l : List α) :
    pySort le l = List.insertionSort (fun x y => le x y = true) l := by
  induction l with
  | nil => rfl
  | cons a t ih =>
    simp only [pySort, List.insertionSort]
    rw [ih, pyInsert_eq_orderedInsert]

theorem replicate_getD_zero (n p : Nat) : (List.replicate n (0 : Nat)).getD p 0 = 0 := by
  rw [List.getD_eq_getElem?_getD, List.getElem?_replicate]
  split <;> rfl

/-! ## Lemmas: the Intel HEX image -/

theorem intel_hex_ok_codeImage (hexdata : List Nat) (recs : List (Nat × List Nat))
    (hparse : collectRecords (splitNl hexdata) = .ok recs) (hne : recs ≠ []) :
    intel_hex_to_blob hexdata = .ok (codeImage recs) := by
  have hemp : recs.isEmpty = false := by
    cases recs with
    | nil => exact absurd rfl hne
    | cons a t => rfl
  unfold intel_hex_to_blob
  rw [hparse]
  simp only [hemp, Bool.false_eq_true, if_false]
  rfl

theorem codeImage_bound (recs : List (Nat × List Nat)) :
    ∀ r ∈ pySort recLe recs,
      r.1 ≤ (List.replicate (((pySort recLe recs).getLastD (0, [])).1 +
        ((pySort recLe recs).getLastD (0, [])).2.length) (0 : Nat)).length := by
  intro r hr
  rw [List.length_replicate]
  have hpair := pySort_pairwise recLe recLe_total recLe_trans recs
  rcases pairwise_rel_getLastD (pySort recLe recs) (0, []) hpair r hr with h | h
  · rw [h]; omega
  · have := recLe_addr _ _ h; omega

theorem codeImage_length (recs : List (Nat × List Nat)) (hne : recs ≠ []) :
    (codeImage recs).length = maxSpan recs := by
  have hperm := pySort_perm recLe recs
  have hsne : pySort recLe recs ≠ [] := by
    intro h0
    exact hne (List.Perm.eq_nil ((h0 ▸ hperm).symm))
  unfold codeImage
  rw [buildImg_length _ _ (codeImage_bound recs), List.length_replicate,
    foldl_max_shift (fun r => r.1 + r.2.length)]
  have h1 : maxSpan (pySort recLe recs) = maxSpan recs := maxSpan_perm hperm
  have h2 : ((pySort recLe recs).getLastD (0, [])).1 +
      ((pySort recLe recs).getLastD (0, [])).2.length ≤ maxSpan (pySort recLe recs) :=
    span_le_maxSpan (getLastD_mem _ (0, []) hsne)
  show max _ (maxSpan (pySort recLe recs)) = maxSpan recs
  omega

theorem codeImage_getD (recs : List (Nat × List Nat)) (p : Nat) :
    (codeImage recs).getD p 0 = lastCoverVal (pySort recLe recs) p := by
  unfold codeImage
  rw [buildImg_getD _ _ (codeImage_bound recs) p]
  unfold lastCoverVal
  cases hf : (pySort recLe recs).reverse.find? (coversB p) with
  | some r => rfl
  | none => exact replicate_getD_zero _ p

/-- Claim C3: on every parseable Intel HEX input with at least one data
record whose records are pairwise non-overlapping, the decoder returns an
image whose length is `max(address + len(data))` over the records and
whose bytes outside every record are zero. -/
theorem c3_hex_decoder_span (hexdata : List Nat) (recs : List (Nat × List Nat))
    (hparse : collectRecords (splitNl hexdata) = .ok recs)
    (hne : recs ≠ [])
    (hdisj : recs.Pairwise (fun r s => r.1 + r.2.length ≤ s.1 ∨ s.1 + s.2.length ≤ r.1)) :
    ∃ img, intel_hex_to_blob hexdata = .ok img ∧
      img.length = maxSpan recs ∧
      ∀ p, p < img.length → (∀ r ∈ recs, ¬ (r.1 ≤ p ∧ p < r.1 + r.2.length)) →
        img.getD p 0 = 0 := by
  refine ⟨codeImage recs, intel_hex_ok_codeImage hexdata recs hparse hne,
    codeImage_length recs hne, ?_⟩
  intro p _ hout
  rw [codeImage_getD recs p]
  unfold lastCoverVal
  have hfind : (pySort recLe recs).reverse.find? (coversB p) = none := by
    rw [List.find?_eq_none]
    intro r hr hcov
    have hrmem : r ∈ recs := (pySort_perm recLe recs).mem_iff.mp (List.mem_reverse.mp hr)
    exact hout r hrmem ((coversB_iff p r).mp hcov)
  rw [hfind]

/-- Witness for C3 at the spec's worked example
`":0300300002337A1E\n:00000001FF"`: one record `02 33 7A` at `0x0030`,
image length 51, zeros before offset `0x30`. -/
theorem c3_hex_decoder_span_witness :
    collectRecords (splitNl c3Input) = .ok [(48, [2, 51, 122])] ∧
    intel_hex_to_blob c3Input = .ok (List.replicate 48 0 ++ [2, 51, 122]) ∧
    (∃ img, intel_hex_to_blob c3Input = .ok img ∧
      img.length = maxSpan [(48, [2, 51, 122])] ∧
      ∀ p, p < img.length →
        (∀ r ∈ [((48 : Nat), [(2 : Nat), 51, 122])], ¬ (r.1 ≤ p ∧ p < r.1 + r.2.length)) →
        img.getD p 0 = 0) := by
  refine ⟨by decide, by decide,
    c3_hex_decoder_span c3Input [(48, [2, 51, 122])] (by decide) (by decide) (by decide)⟩

/-- Claim C4 (amended): on every parseable input with at least one data
record, the decoder's output is the amended model image: records sorted
lexicographically by `(address, data)` — ties on address ordered by the
data bytes, not input order — copied in that order with last-write-wins,
the image growing when a record overruns its end, so the final length is
`max(address + len(data))` over all records. -/
theorem c4_hex_lex_sort_amended (hexdata : List Nat) (recs : List (Nat × List Nat))
    (hparse : collectRecords (splitNl hexdata) = .ok recs) (hne : recs ≠ []) :
    intel_hex_to_blob hexdata = .ok (amendedHexImage recs) := by
  rw [intel_hex_ok_codeImage hexdata recs hparse hne]
  congr 1
  have hlenR : (amendedHexImage recs).length = maxSpan recs := by
    simp [amendedHexImage]
  apply List.ext_getElem ((codeImage_length recs hne).trans hlenR.symm)
  intro n h1 h2
  rw [← List.getD_eq_getElem _ 0 h1, ← List.getD_eq_getElem _ 0 h2]
  rw [codeImage_getD recs n]
  have hn : n < maxSpan recs := by rw [← codeImage_length recs hne]; exact h1
  have hR : (amendedHexImage recs).getD n 0 =
      lastCoverVal (List.insertionSort (fun a b => recLe a b = true) recs) n := by
    unfold amendedHexImage
    rw [List.getD_eq_getElem?_getD, List.getElem?_map]
    rw [List.getElem?_eq_getElem (by simpa using hn)]
    simp
  rw [hR, ← pySort_eq_insertionSort]

/-- Witness for C4's amended claim at the tie-breaking input `c4InputA`. -/
theorem c4_hex_lex_sort_amended_witness :
    collectRecords (splitNl c4InputA) = .ok [(16, [9]), (16, [5, 5])] ∧
    intel_hex_to_blob c4InputA = .ok (amendedHexImage [(16, [9]), (16, [5, 5])]) := by
  refine ⟨by decide, c4_hex_lex_sort_amended c4InputA [(16, [9]), (16, [5, 5])]
    (by decide) (by decide)⟩

/-! ## Lemmas: no-data-record inputs -/

theorem collectRecords_noData (lines : List (List Nat))
    (h : ∀ ln ∈ lines, lineNoData ln = true) : collectRecords lines = .ok [] := by
  induction lines with
  | nil => rfl
  | cons ln rest ih =>
    have hln := h ln (List.mem_cons_self _ _)
    have hrest := ih (fun l hl => h l (List.mem_cons_of_mem _ hl))
    unfold collectRecords
    by_cases h1 : (pyStrip ln).take 1 ≠ [58]
    · rw [if_pos h1]
      exact hrest
    · rw [if_neg h1]
      split
      · exact hrest
      · rename_i record hd
        have hlen : ¬ record.length < 4 := by
          intro h2
          have hfalse : lineNoData ln = false := by
            unfold lineNoData
            rw [if_neg h1]
            simp only [hd]
            rw [if_pos h2]
          exact absurd (hln.symm.trans hfalse) (by simp)
        rw [if_neg hlen]
        show (if record.getD 3 0 = 0 ∧ 0 < record.getD 0 0 then
            match collectRecords rest with
            | .error e => Except.error e
            | .ok ds =>
              Except.ok ((256 * record.getD 1 0 + record.getD 2 0,
                pySlice record 4 (record.getD 0 0)) :: ds)
          else if record.getD 3 0 = 1 then Except.ok [] else collectRecords rest) =
          Except.ok []
        have hnd : ¬ (record.getD 3 0 = 0 ∧ 0 < record.getD 0 0) := by
          intro hx
          have hfalse : lineNoData ln = false := by
            unfold lineNoData
            rw [if_neg h1]
            simp only [hd]
            rw [if_neg hlen]
            rw [hx.1]
            simp only [decide_eq_true_eq, Bool.not_eq_false, Bool.and_eq_true]
            first
            | exact hx.2
            | simpa using hx.2
            | exact ⟨rfl, hx.2⟩
          exact absurd (hln.symm.trans hfalse) (by simp)
        rw [if_neg hnd]
        by_cases h3 : record.getD 3 0 = 1
        · rw [if_pos h3]
        · rw [if_neg h3]
          exact hrest

/-- Claim C5 (amended): on every input each of whose lines is blank, not a
`:` line, hex-undecodable, or a well-formed (at least 4 bytes after hex
decoding) non-data record, the decoder returns the input unchanged.  (The
counterexample `c5_short_record_counterexample` shows the restriction to
≥ 4-byte records is necessary: a shorter `:`-record raises instead.) -/
theorem c5_hex_identity_amended (hexdata : List Nat)
    (h : ∀ ln ∈ splitNl hexdata, lineNoData ln = true) :
    intel_hex_to_blob hexdata = .ok hexdata := by
  unfold intel_hex_to_blob
  rw [collectRecords_noData (splitNl hexdata) h]
  rfl

/-- Witness for C5's amended claim: garbage text plus an end-of-file
record comes back unchanged. -/
theorem c5_hex_identity_amended_witness :
    (∀ ln ∈ splitNl c5Witness, lineNoData ln = true) ∧
    intel_hex_to_blob c5Witness = .ok c5Witness := by
  refine ⟨by decide, c5_hex_identity_amended c5Witness (by decide)⟩

/-- Claim C7: a candidate FPGA bitstream reaching the write stage is
discarded when its final (sniffed/decompressed or raw) length is below
1000 bytes and written when it is 1000 bytes or more. -/
theorem c7_min_size_guard (inflate : List Nat → Option (List Nat)) (model : List Char)
    (raw : List Nat)
    (h : listFind (chars "fwfpga/" ++ model) (chars "fwusb/") = none) :
    write_firmware_files inflate [(chars "fwfpga/" ++ model, (raw, false))] =
      .ok (if (fpgaSniff inflate raw).length < 1000 then []
           else [(chars "kingst-" ++ pyLower model ++ chars "-fpga.bitstream",
             fpgaSniff inflate raw)]) := by
  show write_firmware_files_loop inflate [(chars "fwfpga/" ++ model, (raw, false))] = _
  unfold write_firmware_files_loop
  simp only [h]
  have hpre1 : (chars "fwusb/fw").isPrefixOf (chars "fwfpga/" ++ model) = false := by
    simp [chars, List.isPrefixOf]
  have hpre2 : (chars "fwfpga/").isPrefixOf (chars "fwfpga/" ++ model) = true := by
    simp [chars, List.isPrefixOf]
  have hfind2 : listFind (chars "fwfpga/" ++ model) (chars "fwfpga/") = some 0 := by
    unfold listFind
    rw [if_pos hpre2]
  simp only [hpre1, hfind2, hpre2, Bool.false_eq_true, if_false, List.drop_zero, if_true]
  have hdrop : (chars "fwfpga/" ++ model).drop 7 = model := rfl
  rw [hdrop]
  by_cases hlen : (fpgaSniff inflate raw).length < 1000
  · rw [if_pos hlen, if_pos hlen]
    rfl
  · rw [if_neg hlen, if_neg hlen]
    rfl

/-- Witness for C7: a 999-byte candidate is dropped, a 1000-byte
candidate is written. -/
theorem c7_min_size_guard_witness :
    write_firmware_files inflateNone [(chars "fwfpga/LA2016", (List.replicate 999 0, false))] =
      .ok [] ∧
    write_firmware_files inflateNone [(chars "fwfpga/LA2016", (List.replicate 1000 0, false))] =
      .ok [(chars "kingst-la2016-fpga.bitstream", List.replicate 1000 0)] := by
  have hpath : chars "fwfpga/LA2016" = chars "fwfpga/" ++ chars "LA2016" := by decide
  constructor
  · rw [hpath, c7_min_size_guard inflateNone (chars "LA2016") (List.replicate 999 0) (by decide)]
    decide
  · rw [hpath, c7_min_size_guard inflateNone (chars "LA2016") (List.replicate 1000 0) (by decide)]
    decide

/-! ## Lemmas: the name-table scan -/

theorem scanNamesF_props (buf : List Nat) (base : Nat) :
    ∀ fuel off entries endOff,
      scanNamesF buf base fuel off = (entries, endOff, ScanStop.sentinel) →
      (∀ q ∈ entries.head?, q.1 = off) ∧
      (∀ e ∈ entries, off ≤ e.1) ∧
      entries.Pairwise (fun a b => a.1 + 8 ≤ b.1) ∧
      List.Chain' (fun a b => b.1 = a.1 + 6 + 2 * readU16BED buf (base + a.1)) entries ∧
      (∀ e ∈ entries, 1 ≤ readU16BED buf (base + e.1) ∧ readU16BED buf (base + e.1) ≤ 64) ∧
      (readU16BED buf (base + endOff) = 0 ∨ 64 < readU16BED buf (base + endOff)) := by
  intro fuel
  induction fuel with
  | zero =>
    intro off entries endOff h
    simp [scanNamesF] at h
  | succ fuel ih =>
    intro off entries endOff h
    unfold scanNamesF at h
    by_cases h1 : buf.length < base + off + 6
    · rw [if_pos h1] at h
      simp at h
    · rw [if_neg h1] at h
      by_cases h2 : readU16BED buf (base + off) = 0 ∨ 64 < readU16BED buf (base + off)
      · rw [if_pos h2] at h
        rw [Prod.ext_iff] at h
        obtain ⟨hfst, hsnd⟩ := h
        rw [Prod.ext_iff] at hsnd
        obtain ⟨hsnd1, _⟩ := hsnd
        subst hfst
        subst hsnd1
        refine ⟨by simp, by simp, by simp, by simp, by simp, h2⟩
      · rw [if_neg h2] at h
        cases hdec : utf16beDecode
            (pySlice buf (base + off + 6) (2 * readU16BED buf (base + off))) with
        | none =>
          simp only [hdec] at h
          simp at h
        | some nm =>
          rcases hR : scanNamesF buf base fuel (off + 6 + 2 * readU16BED buf (base + off))
            with ⟨Rents, RendOff, Rstop⟩
          simp only [hdec, hR] at h
          rw [Prod.ext_iff] at h
          obtain ⟨hfst, hsnd⟩ := h
          rw [Prod.ext_iff] at hsnd
          obtain ⟨hsnd1, hsnd2⟩ := hsnd
          subst hfst
          subst hsnd1
          have hstop : Rstop = ScanStop.sentinel := hsnd2
          subst hstop
          have hnl : 1 ≤ readU16BED buf (base + off) ∧ readU16BED buf (base + off) ≤ 64 := by
            push_neg at h2
            omega
          have hr := ih (off + 6 + 2 * readU16BED buf (base + off)) Rents RendOff hR
          obtain ⟨hrhead, hrlow, hrpair, hrchain, hrbound, hrsent⟩ := hr
          refine ⟨?_, ?_, ?_, ?_, ?_, hrsent⟩
          · intro q hq
            simp at hq
            subst hq
            rfl
          · intro e he
            rcases List.mem_cons.mp he with rfl | he2
            · exact Nat.le_refl off
            · have := hrlow e he2
              omega
          · refine List.pairwise_cons.mpr ⟨?_, hrpair⟩
            intro b hb
            have := hrlow b hb
            show off + 8 ≤ b.1
            omega
          · refine List.chain'_cons'.mpr ⟨?_, hrchain⟩
            intro b hb
            have := hrhead b hb
            show b.1 = off + 6 + 2 * readU16BED buf (base + off)
            omega
          · intro e he
            rcases List.mem_cons.mp he with rfl | he2
            · exact hnl
            · exact hrbound e he2

theorem nameMap_preserved (entries : List (Nat × List Char)) (m : List (Nat × List Char))
    (k : Nat) (hk : ∀ p ∈ entries, p.1 + 2 ≠ k ∧ p.1 + 6 ≠ k) :
    dictGet (entries.foldl (fun m e => dictSet (dictSet m (e.1 + 2) e.2) (e.1 + 6) e.2) m) k =
      dictGet m k := by
  induction entries generalizing m with
  | nil => rfl
  | cons e t ih =>
    rw [List.foldl_cons, ih _ (fun p hp => hk p (List.mem_cons_of_mem _ hp))]
    rcases hk e (List.mem_cons_self _ _) with ⟨h2, h6⟩
    rw [dictGet_dictSet_ne _ _ _ _ (Ne.symm h6), dictGet_dictSet_ne _ _ _ _ (Ne.symm h2)]

theorem nameMap_lookup (entries : List (Nat × List Char))
    (hp8 : entries.Pairwise (fun a b => a.1 + 8 ≤ b.1)) :
    ∀ (m : List (Nat × List Char)) (e : Nat) (nm : List Char), (e, nm) ∈ entries →
      dictGet (entries.foldl (fun m e => dictSet (dictSet m (e.1 + 2) e.2) (e.1 + 6) e.2) m)
        (e + 2) = some nm ∧
      dictGet (entries.foldl (fun m e => dictSet (dictSet m (e.1 + 2) e.2) (e.1 + 6) e.2) m)
        (e + 6) = some nm := by
  induction entries with
  | nil => intro m e nm hmem; cases hmem
  | cons hd t ih =>
    intro m e nm hmem
    rcases List.pairwise_cons.mp hp8 with ⟨hhd, ht⟩
    rw [List.foldl_cons]
    rcases List.mem_cons.mp hmem with heq | hmem2
    · have hk : ∀ p ∈ t, (p.1 + 2 ≠ e + 2 ∧ p.1 + 6 ≠ e + 2) ∧
          (p.1 + 2 ≠ e + 6 ∧ p.1 + 6 ≠ e + 6) := by
        intro p hp
        have := hhd p hp
        have he1 : hd.1 = e := by rw [← heq]
        omega
      constructor
      · rw [nameMap_preserved t _ (e + 2) (fun p hp => (hk p hp).1)]
        rw [dictGet_dictSet_ne _ _ _ _ (by rw [← heq]; omega)]
        rw [← heq]
        exact dictGet_dictSet_self _ _ _
      · rw [nameMap_preserved t _ (e + 6) (fun p hp => (hk p hp).2)]
        rw [← heq]
        exact dictGet_dictSet_self _ _ _
    · exact ih ht _ e nm hmem2

/-- Claim C8: on every buffer on which the name-table scan succeeds (stops
at a length-field sentinel), the name index maps both `entryStart + 2` and
`entryStart + 6` of every scanned entry to that entry's decoded string;
the scan starts at the anchor (relative offset 0), every scanned length
field lies in `[1, 64]`, consecutive entries advance by
`6 + 2 * length`, and the scan stops at the first entry whose length
field is 0 or exceeds 64. -/
theorem c8_name_scan_dual_lookup (buf : List Nat) (base : Nat)
    (entries : List (Nat × List Char)) (endOff : Nat)
    (h : scanNames buf base 0 = (entries, endOff, ScanStop.sentinel)) :
    (∀ e nm, (e, nm) ∈ entries →
      dictGet (nameMapOf entries) (e + 2) = some nm ∧
      dictGet (nameMapOf entries) (e + 6) = some nm) ∧
    (∀ q ∈ entries.head?, q.1 = 0) ∧
    List.Chain' (fun a b => b.1 = a.1 + 6 + 2 * readU16BED buf (base + a.1)) entries ∧
    (∀ e ∈ entries, 1 ≤ readU16BED buf (base + e.1) ∧ readU16BED buf (base + e.1) ≤ 64) ∧
    (readU16BED buf (base + endOff) = 0 ∨ 64 < readU16BED buf (base + endOff)) := by
  obtain ⟨hhead, _, hpair, hchain, hbound, hsent⟩ :=
    scanNamesF_props buf base (buf.length + 1) 0 entries endOff h
  exact ⟨fun e nm hmem => nameMap_lookup entries hpair [] e nm hmem,
    hhead, hchain, hbound, hsent⟩

/-- Witness for C8 on a concrete names buffer with two entries and a
zero-length sentinel. -/
theorem c8_name_scan_dual_lookup_witness :
    scanNames c8Buf 0 0 =
      ([(0, chars "fwusb"), (16, chars "fw01A2")], 34, ScanStop.sentinel) ∧
    dictGet (nameMapOf [(0, chars "fwusb"), (16, chars "fw01A2")]) 2 = some (chars "fwusb") ∧
    dictGet (nameMapOf [(0, chars "fwusb"), (16, chars "fw01A2")]) 22 =
      some (chars "fw01A2") := by
  refine ⟨by decide, ?_, ?_⟩
  · exact ((c8_name_scan_dual_lookup c8Buf 0 _ 34 (by decide)).1 0 (chars "fwusb")
      (by decide)).1
  · exact ((c8_name_scan_dual_lookup c8Buf 0 _ 34 (by decide)).1 16 (chars "fw01A2")
      (by decide)).2

/-! ## Lemmas: the tree-anchor scan -/

theorem readU16BE_some (b : List Nat) (i : Nat) (h : i + 2 ≤ b.length) :
    readU16BE b i = some (readU16BED b i) := by
  unfold readU16BE readU16BED
  rw [if_pos h]

theorem readU32BE_some (b : List Nat) (i : Nat) (h : i + 4 ≤ b.length) :
    readU32BE b i = some (readU32BED b i) := by
  unfold readU32BE readU32BED
  rw [if_pos h]

theorem treeAnchorScanF_find (buf : List Nat) (stopv : Nat) :
    ∀ fuel c, (c - stopv + 1) / 2 ≤ fuel →
      (∀ k, k < (c - stopv + 1) / 2 → c - 2 * k + 14 ≤ buf.length) →
      treeAnchorScanF buf stopv fuel c =
        .ok (((List.range ((c - stopv + 1) / 2)).map (fun k => c - 2 * k)).find?
          (treePredB buf)) := by
  intro fuel
  induction fuel with
  | zero =>
    intro c hfuel _
    have hc : (c - stopv + 1) / 2 = 0 := by omega
    rw [hc]
    have hstop : ¬ stopv < c := by omega
    simp [treeAnchorScanF, hstop]
  | succ fuel ih =>
    intro c hfuel hb
    by_cases hstop : stopv < c
    · have hcount : (c - stopv + 1) / 2 = ((c - 2) - stopv + 1) / 2 + 1 := by omega
      have hbound0 : c + 14 ≤ buf.length := by
        have := hb 0 (by omega)
        simpa using this
      have hmapeq : (List.range (((c - 2) - stopv + 1) / 2)).map (fun k => c - 2 * (k + 1)) =
          (List.range (((c - 2) - stopv + 1) / 2)).map (fun k => (c - 2) - 2 * k) := by
        apply List.map_congr_left
        intro k _
        omega
      have hcands : (List.range ((c - stopv + 1) / 2)).map (fun k => c - 2 * k) =
          c :: (List.range (((c - 2) - stopv + 1) / 2)).map (fun k => (c - 2) - 2 * k) := by
        rw [hcount, List.range_succ_eq_map, List.map_cons, List.map_map]
        rw [show ((fun k => c - 2 * k) ∘ Nat.succ) = (fun k => c - 2 * (k + 1)) from rfl]
        rw [hmapeq]
        simp
      rw [hcands]
      unfold treeAnchorScanF
      rw [if_pos hstop]
      simp only [readU16BE_some buf (c + 4) (by omega),
        readU32BE_some buf (c + 6) (by omega), readU32BE_some buf (c + 10) (by omega)]
      have hrec := ih (c - 2) (by omega)
        (fun k hk => by
          have := hb (k + 1) (by omega)
          have h2 : c - 2 * (k + 1) = (c - 2) - 2 * k := by omega
          omega)
      by_cases hflag : readU16BED buf (c + 4) = 2
      · rw [if_neg (not_not_intro hflag)]
        by_cases hcond : 2 ≤ readU32BED buf (c + 6) ∧ readU32BED buf (c + 6) ≤ 10 ∧
            readU32BED buf (c + 10) = 1
        · rw [if_pos hcond]
          rw [List.find?_cons_of_pos _ (by
            unfold treePredB
            simp only [Bool.and_eq_true, decide_eq_true_eq]
            exact ⟨⟨hflag, hcond.1, hcond.2.1⟩, hcond.2.2⟩)]
        · rw [if_neg hcond]
          rw [List.find?_cons_of_neg _ (by
            unfold treePredB
            simp only [Bool.and_eq_true, decide_eq_true_eq]
            intro hx
            exact hcond ⟨hx.1.2.1, hx.1.2.2, hx.2⟩)]
          exact hrec
      · rw [if_pos hflag]
        rw [List.find?_cons_of_neg _ (by
          unfold treePredB
          simp only [Bool.and_eq_true, decide_eq_true_eq]
          intro hx
          exact hflag hx.1.1)]
        exact hrec
    · have hc : (c - stopv + 1) / 2 = 0 := by omega
      rw [hc]
      simp [treeAnchorScanF, hstop]

/-- Claim C9: the tree-anchor stage scans backward from the name-table
start in 2-byte steps, strictly above `max(0, names_base - 4000)`, and
returns the first candidate (in backward scan order) whose flags field at
`+4` is 2, whose child count at `+6` lies in `[2, 10]` and whose
first-child index at `+10` is exactly 1; with no such candidate it fails
with `AnchorNotFound`. -/
theorem c9_tree_anchor_scan (buf : List Nat) (names_base : Nat)
    (h : names_base ≤ buf.length) :
    treeAnchorStage buf names_base =
      match (claimTreeCandidates names_base).find? (treePredB buf) with
      | some c => .ok c
      | none => .error .anchorNotFound := by
  unfold treeAnchorStage treeAnchorScan claimTreeCandidates
  rw [treeAnchorScanF_find buf (names_base - 4000) (names_base - 14 + 1) (names_base - 14)
    (by omega)
    (by
      intro k hk
      have hpos : 0 < (names_base - 14 - (names_base - 4000) + 1) / 2 := by omega
      have h15 : 15 ≤ names_base := by omega
      omega)]
  cases hf : ((List.range ((names_base - 14 - (names_base - 4000) + 1) / 2)).map
      (fun k => names_base - 14 - 2 * k)).find? (treePredB buf) with
  | some c => rfl
  | none => rfl

/-- Witness for C9 on the concrete container `c2Const` with the name
table at byte 58: the code's scan and the claim-side first-match both
yield candidate 2. -/
theorem c9_tree_anchor_scan_witness :
    58 ≤ c2Const.length ∧
    treeAnchorStage c2Const 58 = .ok 2 ∧
    (claimTreeCandidates 58).find? (treePredB c2Const) = some 2 := by
  refine ⟨by decide, ?_, by decide⟩
  rw [c9_tree_anchor_scan c2Const 58 (by decide)]
  decide

/-! ## Lemmas: the elimination phase -/

theorem fpgaKey_inj (a b : List Char) (h : fpgaKey a = fpgaKey b) : a = b :=
  List.append_cancel_left h

theorem nodup_getD_ne (l : List (List Char)) (hl : l.Nodup) (i j : Nat)
    (hi : i < l.length) (hj : j < l.length) (hij : i ≠ j) :
    l.getD i [] ≠ l.getD j [] := by
  rw [List.getD_eq_getElem _ _ hi, List.getD_eq_getElem _ _ hj]
  intro he
  exact hij ((List.Nodup.getElem_inj_iff hl).mp he)

theorem getD_mem_of_lt (l : List (List Char)) (i : Nat) (hi : i < l.length) :
    l.getD i [] ∈ l := by
  rw [List.getD_eq_getElem _ _ hi]
  exact List.getElem_mem hi

theorem elimAssign_preserve (missing : List (List Char)) :
    ∀ (us : List (List Char × List Nat)) (i : Nat) (res : ResourceDict) (k : List Char),
      (∀ j, j < us.length → i + j < missing.length →
        k ≠ fpgaKey (missing.getD (i + j) [])) →
      dictGet (elimAssign missing res i us) k = dictGet res k := by
  intro us
  induction us with
  | nil => intro i res k _; rfl
  | cons hd rest ih =>
    intro i res k hk
    unfold elimAssign
    rw [ih (i + 1) _ k (fun j hj hm => by
      have := hk (j + 1) (by simpa using Nat.succ_lt_succ hj) (by omega)
      rwa [show i + (j + 1) = i + 1 + j from by omega] at this)]
    by_cases hi : i < missing.length
    · rw [if_pos hi]
      exact dictGet_dictSet_ne _ _ _ _ (by
        have := hk 0 (by simp) (by omega)
        simpa using this)
    · rw [if_neg hi]

theorem elimAssign_get (missing : List (List Char)) (hnodup : missing.Nodup) :
    ∀ (us : List (List Char × List Nat)) (i : Nat) (res : ResourceDict) (j : Nat),
      j < us.length → i + j < missing.length →
      dictGet (elimAssign missing res i us) (fpgaKey (missing.getD (i + j) [])) =
        some ((us.getD j ([], [])).2, false) := by
  intro us
  induction us with
  | nil => intro i res j hj _; cases hj
  | cons hd rest ih =>
    intro i res j hj hm
    have hilt : i < missing.length := by omega
    unfold elimAssign
    rw [if_pos hilt]
    cases j with
    | zero =>
      rw [elimAssign_preserve missing rest (i + 1) _ _ (fun j' hj' hm' => by
        simp only [Nat.add_zero]
        exact fun he =>
          nodup_getD_ne missing hnodup i (i + 1 + j') hilt hm' (by omega)
            (fpgaKey_inj _ _ he))]
      simp only [Nat.add_zero]
      exact dictGet_dictSet_self _ _ _
    | succ j' =>
      rw [show i + (j' + 1) = i + 1 + j' from by omega]
      rw [ih (i + 1) _ j' (by simpa using Nat.lt_of_succ_lt_succ (by simpa using hj))
        (by omega)]
      rfl

theorem elimAssign_domain (missing : List (List Char)) :
    ∀ (us : List (List Char × List Nat)) (i : Nat) (res : ResourceDict)
      (k : List Char) (v : List Nat × Bool),
      dictGet (elimAssign missing res i us) k = some v →
      dictGet res k = some v ∨
        ∃ j, j < us.length ∧ i + j < missing.length ∧
          k = fpgaKey (missing.getD (i + j) []) := by
  intro us
  induction us with
  | nil => intro i res k v h; exact Or.inl h
  | cons hd rest ih =>
    intro i res k v h
    unfold elimAssign at h
    rcases ih (i + 1) _ k v h with h1 | ⟨j', hj1, hj2, hj3⟩
    · by_cases hi : i < missing.length
      · rw [if_pos hi] at h1
        rcases dictGet_dictSet_cases _ _ _ _ _ h1 with hk | hres
        · exact Or.inr ⟨0, by simp, by omega, by simpa using hk⟩
        · exact Or.inl hres
      · rw [if_neg hi] at h1
        exact Or.inl h1
    · exact Or.inr ⟨j' + 1, by simpa using Nat.succ_lt_succ hj1,
        by omega, by rwa [show i + (j' + 1) = i + 1 + j' from by omega]⟩

theorem missingOf_nodup (res : ResourceDict) : (missingOf res).Nodup := by
  unfold missingOf
  rw [(pySort_perm charsLe _).nodup_iff]
  exact List.Nodup.filter _ (by decide)

theorem missingOf_not_in_res (res : ResourceDict) (m : List Char)
    (hm : m ∈ missingOf res) : dictGet res (fpgaKey m) = none := by
  have hfil : m ∈ FPGA_MODELS.filter
      (fun m => ¬ (extractedModels res).any (fun n0 => decide (n0 = m))) :=
    (pySort_perm charsLe _).mem_iff.mp hm
  have hnotex : ¬ (extractedModels res).any (fun n0 => decide (n0 = m)) = true := by
    have := List.of_mem_filter hfil
    simpa using this
  cases hget : dictGet res (fpgaKey m) with
  | none => rfl
  | some v =>
    exfalso
    have hkey := dictGet_some_key_mem res (fpgaKey m) v hget
    rcases List.mem_map.mp hkey with ⟨kv, hkv, hkv1⟩
    apply hnotex
    rw [List.any_eq_true]
    refine ⟨m, ?_, by simp⟩
    apply List.mem_filterMap.mpr
    refine ⟨kv, hkv, ?_⟩
    rw [hkv1]
    rw [if_pos (by unfold fpgaKey; simp [chars, List.isPrefixOf])]
    unfold fpgaKey
    rfl

/-- Claim C10: in the elimination phase, the i-th unresolved blob (in
encounter order) is assigned to the i-th missing model (sorted order)
exactly while `i` is below the number of missing models; every key of the
final dict is either a by-name key or one of those assignments (blobs
beyond the count are silently dropped); and an elimination assignment
never overwrites an entry that was already resolved by name. -/
theorem c10_elimination_assignment (res0 : ResourceDict) (children : List QtChild) :
    (∀ i, i < (missingOf (fpgaResolve res0 children).1).length →
       i < (fpgaResolve res0 children).2.length →
       dictGet (fpgaPhase res0 children)
         (fpgaKey ((missingOf (fpgaResolve res0 children).1).getD i [])) =
         some (((fpgaResolve res0 children).2.getD i ([], [])).2, false)) ∧
    (∀ k v, dictGet (fpgaPhase res0 children) k = some v →
       dictGet (fpgaResolve res0 children).1 k = some v ∨
       ∃ i, i < (missingOf (fpgaResolve res0 children).1).length ∧
         i < (fpgaResolve res0 children).2.length ∧
         k = fpgaKey ((missingOf (fpgaResolve res0 children).1).getD i [])) ∧
    (∀ k v, dictGet (fpgaResolve res0 children).1 k = some v →
       dictGet (fpgaPhase res0 children) k = some v) := by
  refine ⟨?_, ?_, ?_⟩
  · intro i hi hu
    have := elimAssign_get (missingOf (fpgaResolve res0 children).1)
      (missingOf_nodup _) (fpgaResolve res0 children).2 0 (fpgaResolve res0 children).1
      i hu (by omega)
    simpa using this
  · intro k v h
    rcases elimAssign_domain (missingOf (fpgaResolve res0 children).1)
      (fpgaResolve res0 children).2 0 (fpgaResolve res0 children).1 k v h with h1 | ⟨j, h2, h3, h4⟩
    · exact Or.inl h1
    · exact Or.inr ⟨j, by omega, h2, by simpa using h4⟩
  · intro k v h
    unfold fpgaPhase
    rw [elimAssign_preserve _ _ _ _ _ (fun j hj hm hk => by
      rw [hk] at h
      rw [missingOf_not_in_res _ _ (getD_mem_of_lt _ _ (by omega))] at h
      cases h)]
    exact h

/-- Witness for C10: one by-name model (`LA2016`) and two unresolved
blobs; the first two missing models in sorted order are `LA1010A0` and
`LA1010A1`, and they receive the two unresolved blobs, while the by-name
entry is untouched. -/
theorem c10_elimination_assignment_witness :
    dictGet (fpgaPhase [] c10Children) (chars "fwfpga/LA1010A0") = some ([7], false) ∧
    dictGet (fpgaPhase [] c10Children) (chars "fwfpga/LA1010A1") = some ([8], false) ∧
    dictGet (fpgaPhase [] c10Children) (chars "fwfpga/LA2016") = some ([1, 2, 3], false) := by
  have h := c10_elimination_assignment [] c10Children
  refine ⟨?_, ?_, ?_⟩
  · have h0 := h.1 0 (by decide) (by decide)
    rw [show fpgaKey ((missingOf (fpgaResolve [] c10Children).1).getD 0 []) =
        chars "fwfpga/LA1010A0" from by decide] at h0
    rw [h0]
    decide
  · have h1 := h.1 1 (by decide) (by decide)
    rw [show fpgaKey ((missingOf (fpgaResolve [] c10Children).1).getD 1 []) =
        chars "fwfpga/LA1010A1" from by decide] at h1
    rw [h1]
    decide
  · have h2 := h.2.2 (chars "fwfpga/LA2016") ([1, 2, 3], false) (by decide)
    exact h2
